import Mathlib

/-!
The tsh job control: a shallow embedding of `tsh.c`.

The job table, its helper routines (`clearjob`, `initjobs`, `maxjid`, `addjob`,
`removejob`, `fgpid`, `getprocessid`, `getjobid`, `get_jid_from_pid`, `showjobs`),
the `fg`/`bg` built-in `do_bgfg`, the wait gate `waitfg`, the handlers
`sigchld_handler` and `sigalrm_handler`, the parser `parseline` and the
dispatcher (`is_builtin_cmd`, `do_killall`, `eval`) are translated from the C
source.

Modelling conventions:
* the global array `jobs[MAXJOBS]` is a `List job_t`; a well-formed table has
  exactly `MAXJOBS` entries and a loop `for (i = 0; i < MAXJOBS; i++)` is the
  traversal of that list in slot order;
* a pointer `&jobs[i]` is the slot index `i`, `NULL` is `none`;
* C `int`/`pid_t` values are mathematical integers (the job ids and counters of
  the program stay far below `2^31`); the result of `atoi`, which reads digits
  typed by the user, is truncated to 32 bits as the C library does;
* the array `char *argv[MAXARGS]` is the list of its entries before the `NULL`
  sentinel; a store at index `MAXARGS` or beyond is a fault;
* a `char cmdline[MAXLINE]` buffer is the C string it holds;
* `stdout` is the string of everything printed so far, `%d` is decimal notation;
* every `kill(pid, sig)` call is recorded in order;
* dereferencing `NULL` is a fault: the function has no result (`none`, or the
  outcome `fault`);
* `fork`, `execvp`, `setpgid` and `alarm` calls are listed in order; what `fork`
  returns and whether `execvp` fails are inputs of `eval`.
-/

namespace Tsh

/-! ## Constants and data model -/

/-- Value of `#define MAXJOBS 16`. -/
def MAXJOBS : Nat := 16

/-- Value of `#define UNDEF 0`. -/
def UNDEF : Int := 0

/-- Value of `#define FG 1`. -/
def FG : Int := 1

/-- Value of `#define BG 2`. -/
def BG : Int := 2

/-- Value of `#define ST 3`. -/
def ST : Int := 3

/-- Signal number of `SIGCONT` (Linux). -/
def SIGCONT : Int := 18

/-- The job struct `struct job_t`. -/
structure job_t where
  pid : Int
  jid : Int
  state : Int
  cmdline : String
deriving DecidableEq, Repr

/-- The global variables of the shell that job control reads and writes, with
the two output channels it drives (`stdout` and the `kill` system call). -/
structure Shell where
  jobs : List job_t
  nextjid : Int
  verbose : Bool
  out : String
  kills : List (Int × Int)
deriving DecidableEq, Repr

/-- Conversion `%d` of `printf`. -/
def fmt_d (n : Int) : String := toString n

/-- Index of the first slot satisfying `p`: the loop
`for (i = 0; i < MAXJOBS; i++) if (p(jobs[i])) return i;`. -/
def firstSlot (p : job_t → Bool) : List job_t → Option Nat
  | [] => none
  | j :: js => if p j then some 0 else (firstSlot p js).map (· + 1)

/-- Write through the pointer `&jobs[i]`: slot `i` becomes `f jobs[i]`. -/
def updateSlot (jobs : List job_t) (i : Nat) (f : job_t → job_t) : List job_t :=
  match jobs[i]? with
  | some j => jobs.set i (f j)
  | none => jobs

/-! ## Job list helper routines -/

/-- Function `clearjob`: clear the entries in a job struct. -/
def clearjob (_job : job_t) : job_t :=
  { pid := 0, jid := 0, state := UNDEF, cmdline := "" }

/-- Function `initjobs`: clear every slot of the job list. -/
def initjobs (jobs : List job_t) : List job_t :=
  jobs.map clearjob

/-- Loop of `maxjid`, with the running maximum `max`. -/
def maxjidLoop : List job_t → Int → Int
  | [], max => max
  | j :: js, max => maxjidLoop js (if j.jid > max then j.jid else max)

/-- Function `maxjid`: largest allocated job id. -/
def maxjid (jobs : List job_t) : Int :=
  maxjidLoop jobs 0

/-- Function `addjob`: add a job to the job list. Returns the C return value and
the new global state. -/
def addjob (s : Shell) (pid : Int) (state : Int) (cmdline : String) : Int × Shell :=
  if pid < 1 then (0, s)
  else
    match firstSlot (fun j => j.pid == 0) s.jobs with
    | some i =>
      let job : job_t := { pid := pid, jid := s.nextjid, state := state, cmdline := cmdline }
      let next := if s.nextjid + 1 > (MAXJOBS : Int) then 1 else s.nextjid + 1
      let out :=
        if s.verbose then
          s.out ++ ("Added job [" ++ fmt_d job.jid ++ "] " ++ fmt_d job.pid ++ " "
            ++ job.cmdline ++ "\n")
        else s.out
      (1, { s with jobs := s.jobs.set i job, nextjid := next, out := out })
    | none => (0, { s with out := s.out ++ "Tried to create too many jobs\n" })

/-- Function `removejob`: delete the job whose PID is `pid` from the job list. -/
def removejob (s : Shell) (pid : Int) : Int × Shell :=
  if pid < 1 then (0, s)
  else
    match firstSlot (fun j => j.pid == pid) s.jobs with
    | some i =>
      let jobs := updateSlot s.jobs i clearjob
      (1, { s with jobs := jobs, nextjid := maxjid jobs + 1 })
    | none => (0, s)

/-- Function `fgpid`: PID of the current foreground job, 0 if no such job. -/
def fgpid (jobs : List job_t) : Int :=
  match firstSlot (fun j => j.state == FG) jobs with
  | some i => match jobs[i]? with
    | some j => j.pid
    | none => 0
  | none => 0

/-- Function `getprocessid`: find a job (by PID) on the job list; the result is
the slot index, `none` for `NULL`. -/
def getprocessid (jobs : List job_t) (pid : Int) : Option Nat :=
  if pid < 1 then none
  else firstSlot (fun j => j.pid == pid) jobs

/-- Function `getjobid`: find a job (by JID) on the job list. -/
def getjobid (jobs : List job_t) (jid : Int) : Option Nat :=
  if jid < 1 then none
  else firstSlot (fun j => j.jid == jid) jobs

/-- Function `get_jid_from_pid`: map a process id to a job id. -/
def get_jid_from_pid (jobs : List job_t) (pid : Int) : Int :=
  if pid < 1 then 0
  else
    match firstSlot (fun j => j.pid == pid) jobs with
    | some i => match jobs[i]? with
      | some j => j.jid
      | none => 0
    | none => 0

/-- Text printed by `showjobs` for the slot `j` at index `i`. -/
def showjob (i : Nat) (j : job_t) : String :=
  if j.pid != 0 then
    ("[" ++ fmt_d j.jid ++ "] (" ++ fmt_d j.pid ++ ") ")
      ++ (if j.state = BG then "Running "
          else if j.state = FG then "Foreground "
          else if j.state = ST then "Stopped "
          else "showjobs: Internal error: job[" ++ fmt_d i ++ "].state=" ++ fmt_d j.state ++ " ")
      ++ j.cmdline
  else ""

/-- Loop of `showjobs` from slot index `i` on. -/
def showjobsFrom : Nat → List job_t → String
  | _, [] => ""
  | i, j :: js => showjob i j ++ showjobsFrom (i + 1) js

/-- Function `showjobs`: the text it prints for the job list. -/
def showjobs (jobs : List job_t) : String :=
  showjobsFrom 0 jobs

/-! ## Child status, the child-status handler and the wait gate -/

/-- Status word filled in by `waitpid(..., WNOHANG|WUNTRACED)`: the child exited
normally, was terminated by a signal, or was stopped by a signal. -/
inductive Status where
  | exited (code : Int)
  | signaled (sig : Int)
  | stopped (sig : Int)
deriving DecidableEq, Repr

/-- Status test `WIFSTOPPED`. -/
def WIFSTOPPED : Status → Bool
  | .stopped _ => true
  | _ => false

/-- Status test `WIFSIGNALED`. -/
def WIFSIGNALED : Status → Bool
  | .signaled _ => true
  | _ => false

/-- Status test `WIFEXITED`. -/
def WIFEXITED : Status → Bool
  | .exited _ => true
  | _ => false

/-- Status field `WSTOPSIG`. -/
def WSTOPSIG : Status → Int
  | .stopped sig => sig
  | _ => 0

/-- Status field `WTERMSIG`. -/
def WTERMSIG : Status → Int
  | .signaled sig => sig
  | _ => 0

/-- Body of the `while` loop of `sigchld_handler` for one reaped child `pid`
with its `status`. `none` is the fault of writing through the `NULL` that
`getprocessid` returned. -/
def sigchld_body (s : Shell) (pid : Int) (status : Status) : Option Shell :=
  if WIFSTOPPED status then
    match getprocessid s.jobs pid with
    | none => none
    | some i =>
      let jobs := updateSlot s.jobs i (fun j => { j with state := ST })
      let jid := get_jid_from_pid jobs pid
      some { s with
        jobs := jobs
        out := s.out ++ ("Job [" ++ fmt_d jid ++ "] (" ++ fmt_d pid ++ ") Stopped by signal "
          ++ fmt_d (WSTOPSIG status) ++ "\n") }
  else if WIFSIGNALED status then
    let jid := get_jid_from_pid s.jobs pid
    let s1 := { s with
      out := s.out ++ ("Job [" ++ fmt_d jid ++ "] (" ++ fmt_d pid ++ ") terminated by signal "
        ++ fmt_d (WTERMSIG status) ++ "\n") }
    some (removejob s1 pid).2
  else if WIFEXITED status then
    some (removejob s pid).2
  else some s

/-- Function `sigchld_handler`. The argument `reaped` lists the results of the
successive `waitpid` calls of one handler run: the returned pid and the status
it filled in. The loop ends at the first result that is not positive, or when
`waitpid` has nothing more to report (end of the list). -/
def sigchld_handler (s : Shell) : List (Int × Status) → Option Shell
  | [] => some s
  | (pid, status) :: rest =>
    if pid > 0 then
      match sigchld_body s pid status with
      | some s1 => sigchld_handler s1 rest
      | none => none
    else some s

/-- Outcome of a call of the wait gate. -/
inductive WaitResult where
  | returned (s : Shell)
  | blocked (s : Shell)
  | fault
deriving DecidableEq, Repr

/-- Loop `while (job->state == FG) sleep(1);` of `waitfg`, with `job = &jobs[i]`.
Each element of `pending` is one run of the child-status handler that
interrupts one `sleep(1)`. With no run left and the job still in the
foreground the gate stays blocked. -/
def waitfgLoop (i : Nat) : Shell → List (List (Int × Status)) → WaitResult
  | s, [] =>
    match s.jobs[i]? with
    | none => .fault
    | some j => if j.state = FG then .blocked s else .returned s
  | s, reaped :: pending =>
    match s.jobs[i]? with
    | none => .fault
    | some j =>
      if j.state = FG then
        match sigchld_handler s reaped with
        | some s1 => waitfgLoop i s1 pending
        | none => .fault
      else .returned s

/-- Function `waitfg`: block until process `pid` is no longer the foreground
process. Reading `job->state` through the `NULL` of a failed lookup is a fault. -/
def waitfg (s : Shell) (pid : Int) (pending : List (List (Int × Status))) : WaitResult :=
  match getprocessid s.jobs pid with
  | none => .fault
  | some i => waitfgLoop i s pending

/-! ## The built-in commands bg and fg -/

/-- Library function `isdigit` on a character of the C locale. -/
def isdigit (c : Char) : Bool :=
  decide (48 ≤ c.toNat ∧ c.toNat ≤ 57)

/-- Library function `isspace` on a character of the C locale. -/
def isspace (c : Char) : Bool :=
  decide (c.toNat = 32 ∨ (9 ≤ c.toNat ∧ c.toNat ≤ 13))

/-- Digit loop of `atoi`: the value of the longest prefix of decimal digits,
continuing from `acc`. -/
def atoiDigits : List Char → Int → Int
  | [], acc => acc
  | c :: cs, acc =>
    if isdigit c then atoiDigits cs (acc * 10 + ((c.toNat : Int) - 48)) else acc

/-- Largest value of the C type `int` (32 bits). -/
def INT_MAX : Int := 2147483647

/-- Largest value of the C type `long` (64 bits). -/
def LONG_MAX : Int := 9223372036854775807

/-- Conversion of a `long` to `int`: the low 32 bits, read as a signed number. -/
def toInt32 (x : Int) : Int :=
  (x + 2147483648) % 4294967296 - 2147483648

/-- Library function `strtol(str, NULL, 10)`: skip white space, read an optional
sign, then the longest prefix of decimal digits; a value outside the range of
`long` is replaced by the nearest bound. -/
def strtol (str : List Char) : Int :=
  let value : Int :=
    match str.dropWhile isspace with
    | [] => 0
    | c :: cs =>
      if c = '-' then - atoiDigits cs 0
      else if c = '+' then atoiDigits cs 0
      else atoiDigits (c :: cs) 0
  if value > LONG_MAX then LONG_MAX
  else if value < -LONG_MAX - 1 then -LONG_MAX - 1
  else value

/-- Library function `atoi`, as the C library defines it:
`(int) strtol(str, NULL, 10)`. The result is a 32-bit `int`; a digit string
whose value does not fit is read as the low 32 bits of its (saturated) value. -/
def atoi (str : List Char) : Int :=
  toInt32 (strtol str)

/-- Function `do_bgfg` up to its call of the wait gate. The vector `argv` holds
the tokens before the `NULL` sentinel. The second component is `some pid` when
the function goes on to call `waitfg(pid)` and `none` when it returns without
waiting. -/
def do_bgfg_core (s : Shell) (argv : List String) : Shell × Option Int :=
  let argv0 := argv.getD 0 ""
  match argv[1]? with
  | none =>
    ({ s with out := s.out ++ (argv0 ++ " This command requires a PID or %jobid as an argument\n") },
      none)
  | some tempArg =>
    let resolved : Except String (Nat × Int) :=
      match tempArg.toList with
      | [] => .error (argv0 ++ ": argument must be a PID or %jobid\n")
      | c :: cs =>
        if c = '%' then
          match getjobid s.jobs (atoi cs) with
          | none => .error (tempArg ++ ": No such job exists\n")
          | some i =>
            match s.jobs[i]? with
            | some j => .ok (i, j.pid)
            | none => .ok (i, 0)
        else if isdigit c then
          match getprocessid s.jobs (atoi (c :: cs)) with
          | none => .error ("(" ++ fmt_d (atoi (c :: cs)) ++ "): No such process\n")
          | some i => .ok (i, atoi (c :: cs))
        else .error (argv0 ++ ": argument must be a PID or %jobid\n")
    match resolved with
    | .error msg => ({ s with out := s.out ++ msg }, none)
    | .ok (i, pid) =>
      let s1 := { s with kills := s.kills ++ [(-pid, SIGCONT)] }
      if argv0 = "fg" then
        let jobs := updateSlot s1.jobs i (fun j => { j with state := FG })
        ({ s1 with jobs := jobs },
          match jobs[i]? with
          | some j => some j.pid
          | none => some 0)
      else
        let line :=
          match s1.jobs[i]? with
          | some j => "[" ++ fmt_d j.jid ++ "] (" ++ fmt_d j.pid ++ ") " ++ j.cmdline
          | none => ""
        ({ s1 with
            out := s1.out ++ line
            jobs := updateSlot s1.jobs i (fun j => { j with state := BG }) },
          none)

/-- Function `do_bgfg`: execute the built-in bg and fg commands. The list
`pending` feeds the wait gate that `fg` enters. -/
def do_bgfg (s : Shell) (argv : List String) (pending : List (List (Int × Status))) :
    WaitResult :=
  match do_bgfg_core s argv with
  | (s1, some pid) => waitfg s1 pid pending
  | (s1, none) => .returned s1

/-! ## Sequences of job-table operations -/

/-- One call on the job table. -/
inductive JobOp where
  | add (pid : Int) (state : Int) (cmdline : String)
  | remove (pid : Int)
deriving DecidableEq, Repr

/-- State after one job-table call. -/
def applyOp (s : Shell) : JobOp → Shell
  | .add pid state cmdline => (addjob s pid state cmdline).2
  | .remove pid => (removejob s pid).2

/-- State after a sequence of job-table calls, first call first. -/
def runOps (s : Shell) : List JobOp → Shell
  | [] => s
  | op :: ops => runOps (applyOp s op) ops

/-- State of the shell when `main` has run `initjobs(jobs)`: all `MAXJOBS`
slots cleared and `nextjid = 1`. -/
def initShell (verbose : Bool) : Shell :=
  { jobs := initjobs (List.replicate MAXJOBS { pid := 0, jid := 0, state := 0, cmdline := "" })
    nextjid := 1
    verbose := verbose
    out := ""
    kills := [] }

/-! ## Steps of the shell on the job table -/

/-- One step of the shell that touches the job table. -/
inductive ShellStep where
  -- parent side of `eval` after `fork` returned `pid`:
  -- `addjob(jobs, pid, bg ? BG : FG, cmdline)`
  | launch (pid : Int) (bg : Bool) (cmdline : String)
  -- built-in `fg` or `bg` with the argument vector `argv`, up to the wait gate
  | bgfg (argv : List String)
  -- one child status reaped by the child-status handler
  | child (pid : Int) (status : Status)
deriving DecidableEq, Repr

/-- State after one shell step; `none` when the step faults. -/
def shellStep (s : Shell) : ShellStep → Option Shell
  | .launch pid bg cmdline => some (addjob s pid (if bg then BG else FG) cmdline).2
  | .bgfg argv => some (do_bgfg_core s argv).1
  | .child pid status => sigchld_body s pid status

/-- Steps that put a job into the Foreground state: a foreground launch and the
built-in `fg`. -/
def makesForeground : ShellStep → Bool
  | .launch _ bg _ => !bg
  | .bgfg argv => decide (argv.getD 0 "" = "fg")
  | .child _ _ => false

/-- Number of slots whose state is `FG`. -/
def fgCount (jobs : List job_t) : Nat :=
  jobs.countP (fun j => j.state == FG)

/-- Run a sequence of shell steps in which a step that makes a job Foreground
is taken only when no slot is Foreground. `none` when a step is not allowed
at its turn or faults. -/
def runSteps (s : Shell) : List ShellStep → Option Shell
  | [] => some s
  | st :: rest =>
    if makesForeground st && decide (fgCount s.jobs ≠ 0) then none
    else
      match shellStep s st with
      | some s1 => runSteps s1 rest
      | none => none

/-! ## Derived notions used in the statements -/

/-- The job struct a lookup result points to (`none` for `NULL`). -/
def deref (jobs : List job_t) : Option Nat → Option job_t
  | some i => jobs[i]?
  | none => none

/-- Pids of the live slots (`pid != 0`), in slot order. -/
def livePids (jobs : List job_t) : List Int :=
  (jobs.filter (fun j => j.pid != 0)).map (fun j => j.pid)

/-- Job ids of the live slots (`pid != 0`), in slot order. -/
def liveJids (jobs : List job_t) : List Int :=
  (jobs.filter (fun j => j.pid != 0)).map (fun j => j.jid)

/-- Every `add` of the sequence is given a pid that is not live at that moment. -/
def freshAdds (s : Shell) : List JobOp → Prop
  | [] => True
  | .add pid state cmdline :: ops =>
    pid ∉ livePids s.jobs ∧ freshAdds (addjob s pid state cmdline).2 ops
  | .remove pid :: ops => freshAdds (removejob s pid).2 ops

/-- Every `add` of the sequence is given a positive pid. -/
def positiveAdds : List JobOp → Prop
  | [] => True
  | .add pid _ _ :: ops => 0 < pid ∧ positiveAdds ops
  | .remove _ :: ops => positiveAdds ops

/-- Every `add` of the sequence is given one of the job states `FG`, `BG`, `ST`. -/
def properStates : List JobOp → Prop
  | [] => True
  | .add _ state _ :: ops => (state = FG ∨ state = BG ∨ state = ST) ∧ properStates ops
  | .remove _ :: ops => properStates ops

/-- Number of `add` calls of the sequence that return success. -/
def successfulAdds (s : Shell) : List JobOp → Nat
  | [] => 0
  | .add pid state cmdline :: ops =>
    (if (addjob s pid state cmdline).1 = 1 then 1 else 0)
      + successfulAdds (addjob s pid state cmdline).2 ops
  | .remove pid :: ops => successfulAdds (removejob s pid).2 ops

/-- Number of `remove` calls of the sequence that return success. -/
def successfulRemoves (s : Shell) : List JobOp → Nat
  | [] => 0
  | .add pid state cmdline :: ops => successfulRemoves (addjob s pid state cmdline).2 ops
  | .remove pid :: ops =>
    (if (removejob s pid).1 = 1 then 1 else 0) + successfulRemoves (removejob s pid).2 ops

/-- The number `m` is the largest job id among the live slots, and 0 when no
slot is live. -/
def IsMaxLiveJid (jobs : List job_t) (m : Int) : Prop :=
  (liveJids jobs = [] ∧ m = 0) ∨ (m ∈ liveJids jobs ∧ ∀ x ∈ liveJids jobs, x ≤ m)

/-- Entry of the jobs listing for a live job, as the specification words it:
`[jid] (pid) <Running|Foreground|Stopped> cmdline`. -/
def listingEntry (j : job_t) : String :=
  "[" ++ fmt_d j.jid ++ "] (" ++ fmt_d j.pid ++ ") "
    ++ (if j.state = BG then "Running "
        else if j.state = FG then "Foreground "
        else if j.state = ST then "Stopped "
        else "")
    ++ j.cmdline

/-- The jobs listing as the specification words it: the entries of the live
slots, in slot order, and nothing else. -/
def listing (jobs : List job_t) : String :=
  ((jobs.filter (fun j => j.pid != 0)).map listingEntry).foldr (fun e rest => e ++ rest) ""

instance (s : Shell) (ops : List JobOp) : Decidable (freshAdds s ops) := by
  induction ops generalizing s with
  | nil => exact isTrue trivial
  | cons op ops ih =>
    cases op with
    | add pid state cmdline => unfold freshAdds; exact instDecidableAnd
    | remove pid => unfold freshAdds; exact ih _

instance (ops : List JobOp) : Decidable (positiveAdds ops) := by
  induction ops with
  | nil => exact isTrue trivial
  | cons op ops ih =>
    cases op with
    | add pid state cmdline => unfold positiveAdds; exact instDecidableAnd
    | remove pid => unfold positiveAdds; exact ih

instance (ops : List JobOp) : Decidable (properStates ops) := by
  induction ops with
  | nil => exact isTrue trivial
  | cons op ops ih =>
    cases op with
    | add pid state cmdline => unfold properStates; exact instDecidableAnd
    | remove pid => unfold properStates; exact ih

instance (jobs : List job_t) (m : Int) : Decidable (IsMaxLiveJid jobs m) := by
  unfold IsMaxLiveJid; exact instDecidableOr

/-! ## Invariants, counters and example tables used in the statements -/

/-- A 16-slot table with two jobs: pid 200 in the background (job 1) and pid
201 stopped (job 2). -/
def twoJobs : Shell :=
  runOps (initShell false) [.add 200 BG "./myspin 4 &\n", .add 201 ST "./myspin 5\n"]

/-- Sixteen jobs are started, in between the second one is removed: fifteen
adds, one remove, two more adds. Every pid is positive and new. -/
def wrapOps : List JobOp :=
  [.add 1 BG "a &\n", .add 2 BG "a &\n", .add 3 BG "a &\n", .add 4 BG "a &\n",
   .add 5 BG "a &\n", .add 6 BG "a &\n", .add 7 BG "a &\n", .add 8 BG "a &\n",
   .add 9 BG "a &\n", .add 10 BG "a &\n", .add 11 BG "a &\n", .add 12 BG "a &\n",
   .add 13 BG "a &\n", .add 14 BG "a &\n", .add 15 BG "a &\n",
   .remove 2, .add 16 BG "a &\n", .add 17 BG "a &\n"]

/-- A full table: sixteen jobs with pids 1 to 16. -/
def fullTable : Shell :=
  runOps (initShell false)
    [.add 1 BG "a &\n", .add 2 BG "a &\n", .add 3 BG "a &\n", .add 4 BG "a &\n",
     .add 5 BG "a &\n", .add 6 BG "a &\n", .add 7 BG "a &\n", .add 8 BG "a &\n",
     .add 9 BG "a &\n", .add 10 BG "a &\n", .add 11 BG "a &\n", .add 12 BG "a &\n",
     .add 13 BG "a &\n", .add 14 BG "a &\n", .add 15 BG "a &\n", .add 16 BG "a &\n"]

/-- Invariant of the tables that `addjob` and `removejob` build from the
initialized one: the counter is positive, a free slot has job id 0, a live
slot has a positive pid and a positive job id. -/
def TableInv (s : Shell) : Prop :=
  1 ≤ s.nextjid ∧
  ∀ j ∈ s.jobs, (j.pid = 0 → j.jid = 0) ∧ (j.pid ≠ 0 → 1 ≤ j.pid ∧ 1 ≤ j.jid)

/-- Jobs 200 (id 1) and 201 (id 2), both in the background. -/
def twoBackground : Shell :=
  runOps (initShell false) [.add 200 BG "a &\n", .add 201 BG "b &\n"]

/-- Number of live slots (`pid != 0`). -/
def liveCount (jobs : List job_t) : Nat :=
  (jobs.filter (fun j => j.pid != 0)).length

/-- Three adds (background, foreground, stopped), one remove that succeeds and
one that fails. -/
def listingOps : List JobOp :=
  [.add 200 BG "./myspin 4 &\n", .add 201 FG "./myspin 5\n", .remove 200, .remove 7,
   .add 202 ST "./myspin 6\n"]

/-- A foreground launch that is stopped, a background launch, `fg %2`, the
exit of that job, `bg %1`. -/
def sessionSteps : List ShellStep :=
  [.launch 100 false "./myspin 4\n", .child 100 (.stopped 20),
   .launch 101 true "./myspin 5 &\n", .bgfg ["fg", "%2"], .child 101 (.exited 0),
   .bgfg ["bg", "%1"]]

/-- A table whose foreground job is pid 100, with job id 1. -/
def foregroundJob : Shell :=
  runOps (initShell false) [.add 100 FG "./myspin 4\n", .add 101 BG "./myspin 5 &\n"]

/-- The slots of a job table the program can hold: a free slot is cleared (job
id 0), a live slot has a positive pid and a positive job id. -/
def SlotsInv (jobs : List job_t) : Prop :=
  ∀ j ∈ jobs, (j.pid = 0 → j.jid = 0) ∧ (j.pid ≠ 0 → 1 ≤ j.pid ∧ 1 ≤ j.jid)

instance (jobs : List job_t) : Decidable (SlotsInv jobs) := by
  unfold SlotsInv; exact List.decidableBAll _ _

/-! ## The command-line parser -/

/-- Library function `strchr(buf, c)` on a C string: the text before the first
occurrence of `c` and the text after it, `none` when `c` does not occur. -/
def strchr (c : Char) : List Char → Option (List Char × List Char)
  | [] => none
  | x :: xs =>
    if x = c then some ([], xs)
    else
      match strchr c xs with
      | some (before, after) => some (x :: before, after)
      | none => none

/-- Loop `while (*buf && (*buf == ' ')) buf++;` of `parseline`. -/
def skipSpaces (buf : List Char) : List Char :=
  buf.dropWhile (fun c => c == ' ')

/-- The single quote character. -/
def quoteChar : Char := Char.ofNat 39

/-- Search of the next delimiter in `parseline`: after an opening single quote
the closing quote, otherwise the next space. The result is the token that ends
at the delimiter and the text after the delimiter. -/
def findDelim : List Char → Option (List Char × List Char)
  | [] => strchr ' ' []
  | c :: cs => if c = quoteChar then strchr quoteChar cs else strchr ' ' (c :: cs)

/-- Value of `#define MAXARGS 128`, the size of the array `char *argv[MAXARGS]`
that `eval` passes to `parseline`. -/
def MAXARGS : Nat := 128

/-- Loop `while (delim) ...` of `parseline` that builds the `argv` list, on the
buffer `buf` from which leading spaces are skipped, with `argc` tokens stored
so far. The stores `argv[argc++] = buf` in the loop and `argv[argc] = NULL`
after it are made without a test of `argc`: a store at index `MAXARGS` or
beyond is out of bounds, and the result is `none`. Every round consumes the
delimiter, so `buf.length` rounds always suffice (`parseLoop_fuel`). -/
def parseLoop : Nat → Nat → List Char → Option (List String)
  | 0, argc, _ => if argc < MAXARGS then some [] else none
  | fuel + 1, argc, buf =>
    match findDelim buf with
    | none => if argc < MAXARGS then some [] else none
    | some (token, rest) =>
      if argc < MAXARGS then
        match parseLoop fuel (argc + 1) (skipSpaces rest) with
        | some args => some (String.mk token :: args)
        | none => none
      else none

/-- The token sequence that `parseline` stores in `argv` for a command line,
before it looks at the last token: the last character (the newline) is
replaced by a space, then tokens are cut at spaces or at closing quotes.
`none` when the tokens and the sentinel do not fit in `argv`. -/
def tokenize (cmdline : String) : Option (List String) :=
  parseLoop (cmdline.toList.dropLast ++ [' ']).length 0
    (skipSpaces (cmdline.toList.dropLast ++ [' ']))

/-- Function `parseline`: the returned flag and the argument vector (the
entries before the `NULL` sentinel). `none` for the empty string, on which
`buf[strlen(buf)-1]` is out of bounds, and for a line with `MAXARGS` or more
tokens, on which the stores into `argv` are out of bounds. -/
def parseline (cmdline : String) : Option (Int × List String) :=
  if cmdline.toList = [] then none
  else
    match tokenize cmdline with
    | none => none
    | some tokens =>
      match tokens.getLast? with
      | none => some (1, [])
      | some last =>
        if last.toList.head? = some '&' then some (1, tokens.dropLast)
        else some (0, tokens)

/-- Loop that writes `n` times the token `a` and a space. -/
def tokenChars : Nat → List Char
  | 0 => []
  | n + 1 => 'a' :: ' ' :: tokenChars n

/-- The command line of `n` tokens `a`, with its newline. -/
def tokenLine (n : Nat) : String :=
  String.mk (tokenChars n ++ ['\n'])

/-! ## The command dispatcher -/

/-- Process-control system calls of the shell and of its children. -/
inductive SysCall where
  | fork
  | setpgid (pid pgid : Int)
  | execvp (file : String) (argv : List String)
  | alarm (seconds : Int)
deriving DecidableEq, Repr

/-- How a call of `eval` ends for the process that runs it. -/
inductive Outcome where
  -- control is back in the read loop
  | returned (s : Shell)
  -- the process waits in `waitfg`, no child status pending
  | blocked (s : Shell)
  -- the process called `exit(status)`
  | exited (status : Int) (s : Shell)
  -- `execvp` replaced the process image
  | replaced
  -- a `NULL` pointer was dereferenced
  | fault
deriving DecidableEq, Repr

/-- Outcome of a call that ends in the wait gate. -/
def WaitResult.toOutcome : WaitResult → Outcome
  | .returned s => .returned s
  | .blocked s => .blocked s
  | .fault => .fault

/-- Result of `is_builtin_cmd`: it returns the value `ret`, or control does
not come back to the caller. -/
inductive BuiltinResult where
  | value (ret : Int) (s : Shell)
  | ends (o : Outcome)
deriving DecidableEq, Repr

/-- Function `is_builtin_cmd`: `.value ret s` when it returns `ret`, `.ends`
when control does not come back (`exit`, a blocked wait gate) or when
`strcmp` reads the `NULL` in `argv[0]`. -/
def is_builtin_cmd (s : Shell) (argv : List String) (pending : List (List (Int × Status))) :
    BuiltinResult :=
  match argv with
  | [] => .ends .fault
  | argv0 :: _ =>
    if argv0 = "exit" then .ends (.exited 0 s)
    else if argv0 = "quit" then .ends (.exited 0 s)
    else if argv0 = "fg" then
      match do_bgfg s argv pending with
      | .returned s1 => .value 1 s1
      | .blocked s1 => .ends (.blocked s1)
      | .fault => .ends .fault
    else if argv0 = "bg" then
      match do_bgfg s argv pending with
      | .returned s1 => .value 1 s1
      | .blocked s1 => .ends (.blocked s1)
      | .fault => .ends .fault
    else if argv0 = "jobs" then .value 1 { s with out := s.out ++ showjobs s.jobs }
    else .value 0 s

/-- Function `do_killall`: the call `alarm(*argv[1])`, whose argument is the
character code of the first character of `argv[1]`. `none` when `argv[1]` is
the `NULL` sentinel. No function of the program calls `do_killall`. -/
def do_killall (argv : List String) : Option (List SysCall) :=
  match argv[1]? with
  | none => none
  | some arg =>
    match arg.toList with
    | [] => some [.alarm 0]
    | c :: _ => some [.alarm c.toNat]

/-- Child branch of `eval`, entered when `fork` returns 0: the system calls of
the child in order, and how the child ends. The flag `execFails` tells
whether `execvp` returns. -/
def eval_child (s : Shell) (argv : List String) (execFails : Bool) : List SysCall × Outcome :=
  ([.execvp (argv.getD 0 "") argv],
    if execFails then
      .exited 0 { s with out := s.out ++ (argv.getD 0 "" ++ ": Command not found\n") }
    else .replaced)

/-- Parent side of `eval` after `fork` returned `pid`: registration of the job,
then the wait gate or the background announcement. -/
def eval_parent (s : Shell) (pid : Int) (bg : Int) (cmdline : String)
    (pending : List (List (Int × Status))) : Outcome :=
  let s1 := (addjob s pid (if bg ≠ 0 then BG else FG) cmdline).2
  if bg = 0 then (waitfg s1 pid pending).toOutcome
  else
    match getprocessid s1.jobs pid with
    | none => .fault
    | some i =>
      match s1.jobs[i]? with
      | none => .fault
      | some job =>
        .returned { s1 with
          out := s1.out ++ ("[" ++ fmt_d job.jid ++ "] (" ++ fmt_d job.pid ++ ") " ++ cmdline) }

/-- Function `eval`: evaluate the command line. The value `forkResult` is what
`fork` returns in the process that is followed (0 in the child, the pid of the
child or -1 in the parent). The result lists the process-control system
calls made, in order, and how the call ends. -/
def eval (s : Shell) (cmdline : String) (forkResult : Int) (execFails : Bool)
    (pending : List (List (Int × Status))) : List SysCall × Outcome :=
  match parseline cmdline with
  | none => ([], .fault)
  | some (bg, argv) =>
    match is_builtin_cmd s argv pending with
    | .ends o => ([], o)
    | .value ret s1 =>
      if ret ≠ 0 then ([], .returned s1)
      else if forkResult = 0 then
        (.fork :: (eval_child s1 argv execFails).1, (eval_child s1 argv execFails).2)
      else ([.fork], eval_parent s1 forkResult bg cmdline pending)

/-! ## The alarm handler -/

/-- Signal number of `SIGINT` (Linux). -/
def SIGINT : Int := 2

/-- Signal number of `SIGALRM` (Linux). -/
def SIGALRM : Int := 14

/-- Loop of `sigalrm_handler`: the `kill` calls made for the slots, in slot
order. -/
def sigalrmLoop (sig : Int) : List job_t → List (Int × Int)
  | [] => []
  | j :: js =>
    if j.pid != 0 then (-j.pid, sig) :: sigalrmLoop sig js
    else sigalrmLoop sig js

/-- Function `sigalrm_handler`, called with the number `sig` of the signal that
is delivered. -/
def sigalrm_handler (s : Shell) (sig : Int) : Shell :=
  { s with kills := s.kills ++ sigalrmLoop sig s.jobs }

/-! ## Lemmas on the slot search and slot update -/

theorem firstSlot_eq_none {p : job_t → Bool} {l : List job_t} :
    firstSlot p l = none ↔ ∀ j ∈ l, p j = false := by
  induction l with
  | nil => simp [firstSlot]
  | cons a l ih =>
    by_cases ha : p a = true
    · simp [firstSlot, ha]
    · simp [firstSlot, ha, ih]

theorem firstSlot_eq_some {p : job_t → Bool} {l : List job_t} {i : Nat}
    (h : firstSlot p l = some i) :
    ∃ l1 j l2, l = l1 ++ j :: l2 ∧ l1.length = i ∧ p j = true ∧ ∀ x ∈ l1, p x = false := by
  induction l generalizing i with
  | nil => simp [firstSlot] at h
  | cons a l ih =>
    by_cases ha : p a = true
    · simp [firstSlot, ha] at h
      exact ⟨[], a, l, by simp, by simpa using h, ha, by simp⟩
    · simp [firstSlot, ha] at h
      obtain ⟨k, hk, rfl⟩ := h
      obtain ⟨l1, j, l2, hl, hlen, hj, hno⟩ := ih hk
      refine ⟨a :: l1, j, l2, by simp [hl], by simp [hlen], hj, ?_⟩
      intro x hx
      rcases List.mem_cons.mp hx with rfl | hx
      · simpa using ha
      · exact hno x hx

theorem firstSlot_split {p : job_t → Bool} (l1 : List job_t) (j : job_t) (l2 : List job_t)
    (hno : ∀ x ∈ l1, p x = false) (hj : p j = true) :
    firstSlot p (l1 ++ j :: l2) = some l1.length := by
  induction l1 with
  | nil => simp [firstSlot, hj]
  | cons a l1 ih =>
    have ha : p a = false := hno a (by simp)
    have := ih (fun x hx => hno x (by simp [hx]))
    simp [firstSlot, ha, this]

theorem getElem?_split (l1 : List job_t) (j : job_t) (l2 : List job_t) :
    (l1 ++ j :: l2)[l1.length]? = some j := by
  rw [List.getElem?_append_right (le_refl _)]; simp

theorem set_split (l1 : List job_t) (j a : job_t) (l2 : List job_t) :
    (l1 ++ j :: l2).set l1.length a = l1 ++ a :: l2 := by
  simp

theorem updateSlot_split (l1 : List job_t) (j : job_t) (l2 : List job_t) (f : job_t → job_t) :
    updateSlot (l1 ++ j :: l2) l1.length f = l1 ++ f j :: l2 := by
  unfold updateSlot
  rw [getElem?_split]
  simp

/-! ## Case analysis of `addjob` and `removejob` -/

/-- The two outcomes of `addjob`: failure without any change of the table, or
success with the first free slot filled. -/
theorem addjob_cases (s : Shell) (pid state : Int) (cmdline : String) :
    ((pid < 1 ∨ ∀ j ∈ s.jobs, j.pid ≠ 0) ∧
      (addjob s pid state cmdline).1 = 0 ∧
      (addjob s pid state cmdline).2.jobs = s.jobs ∧
      (addjob s pid state cmdline).2.nextjid = s.nextjid) ∨
    (1 ≤ pid ∧ ∃ l1 j l2, s.jobs = l1 ++ j :: l2 ∧ j.pid = 0 ∧ (∀ x ∈ l1, x.pid ≠ 0) ∧
      (addjob s pid state cmdline).1 = 1 ∧
      (addjob s pid state cmdline).2.jobs
        = l1 ++ { pid := pid, jid := s.nextjid, state := state, cmdline := cmdline } :: l2 ∧
      (addjob s pid state cmdline).2.nextjid
        = (if s.nextjid + 1 > (MAXJOBS : Int) then 1 else s.nextjid + 1)) := by
  by_cases hpid : pid < 1
  · left
    simp [addjob, hpid]
  · cases hfs : firstSlot (fun j => j.pid == 0) s.jobs with
    | none =>
      left
      have hall := firstSlot_eq_none.mp hfs
      refine ⟨Or.inr (fun j hj => by simpa using hall j hj), ?_⟩
      simp [addjob, hpid, hfs]
    | some i =>
      right
      obtain ⟨l1, j, l2, hl, hlen, hj, hno⟩ := firstSlot_eq_some hfs
      refine ⟨by omega, l1, j, l2, hl, by simpa using hj,
        fun x hx => by simpa using hno x hx, ?_⟩
      subst hlen
      rw [hl] at hfs
      simp [addjob, hpid, hfs, hl]

/-- The two outcomes of `removejob`: failure without any change, or success
with the first slot holding `pid` cleared and the counter recomputed. -/
theorem removejob_cases (s : Shell) (pid : Int) :
    ((pid < 1 ∨ ∀ j ∈ s.jobs, j.pid ≠ pid) ∧ removejob s pid = (0, s)) ∨
    (1 ≤ pid ∧ ∃ l1 j l2, s.jobs = l1 ++ j :: l2 ∧ j.pid = pid ∧ (∀ x ∈ l1, x.pid ≠ pid) ∧
      removejob s pid
        = (1, { s with
            jobs := l1 ++ clearjob j :: l2
            nextjid := maxjid (l1 ++ clearjob j :: l2) + 1 })) := by
  by_cases hpid : pid < 1
  · left
    simp [removejob, hpid]
  · cases hfs : firstSlot (fun j => j.pid == pid) s.jobs with
    | none =>
      left
      have hall := firstSlot_eq_none.mp hfs
      refine ⟨Or.inr (fun j hj => by simpa using hall j hj), ?_⟩
      simp [removejob, hpid, hfs]
    | some i =>
      right
      obtain ⟨l1, j, l2, hl, hlen, hj, hno⟩ := firstSlot_eq_some hfs
      refine ⟨by omega, l1, j, l2, hl, by simpa using hj,
        fun x hx => by simpa using hno x hx, ?_⟩
      subst hlen
      rw [hl] at hfs
      simp [removejob, hpid, hfs, hl, updateSlot_split]

/-! ## Uniqueness of job ids and of pids (C1, C2) -/

theorem livePids_split (l1 : List job_t) (a : job_t) (l2 : List job_t) :
    livePids (l1 ++ a :: l2)
      = livePids l1 ++ (if a.pid = 0 then [] else [a.pid]) ++ livePids l2 := by
  by_cases h : a.pid = 0 <;> simp [livePids, List.filter_cons, h]

theorem mem_livePids {jobs : List job_t} {pid : Int} :
    pid ∈ livePids jobs ↔ pid ≠ 0 ∧ ∃ j ∈ jobs, j.pid = pid := by
  simp only [livePids, List.mem_map, List.mem_filter]
  constructor
  · rintro ⟨j, ⟨hj, hlive⟩, rfl⟩
    exact ⟨by simpa using hlive, j, hj, rfl⟩
  · rintro ⟨h0, j, hj, rfl⟩
    exact ⟨j, ⟨hj, by simpa using h0⟩, rfl⟩

/-- Adding a pid that is not live keeps the live pids pairwise distinct. -/
theorem addjob_livePids_nodup (s : Shell) (pid state : Int) (cmdline : String)
    (hnd : (livePids s.jobs).Nodup) (hfresh : pid ∉ livePids s.jobs) :
    (livePids (addjob s pid state cmdline).2.jobs).Nodup := by
  rcases addjob_cases s pid state cmdline with ⟨_, _, hjobs, _⟩ | ⟨hpos, l1, j, l2, hl, hj, _, _, hjobs, _⟩
  · rw [hjobs]; exact hnd
  · rw [hjobs, livePids_split]
    rw [hl, livePids_split] at hnd hfresh
    have hp : pid ≠ 0 := by omega
    simp only [hj, if_true, List.append_nil] at hnd hfresh
    simp only [hp, if_false]
    rw [List.append_assoc, List.singleton_append]
    exact List.nodup_middle.mpr (List.nodup_cons.mpr ⟨hfresh, hnd⟩)

/-- Removing a job keeps the live pids pairwise distinct. -/
theorem removejob_livePids_nodup (s : Shell) (pid : Int)
    (hnd : (livePids s.jobs).Nodup) :
    (livePids (removejob s pid).2.jobs).Nodup := by
  rcases removejob_cases s pid with ⟨_, heq⟩ | ⟨_, l1, j, l2, hl, _, _, heq⟩
  · rw [heq]; exact hnd
  · rw [heq]
    rw [hl, livePids_split] at hnd
    simp only [livePids_split, clearjob, if_true, List.append_nil]
    refine hnd.sublist ?_
    rw [List.append_assoc]
    exact List.Sublist.append (List.Sublist.refl _) (List.sublist_append_right _ _)

theorem livePids_initShell (verbose : Bool) : livePids (initShell verbose).jobs = [] := by
  cases verbose <;> decide

/-- Invariant: under fresh adds the live pids stay pairwise distinct. -/
theorem runOps_livePids_nodup (s : Shell) (ops : List JobOp)
    (hnd : (livePids s.jobs).Nodup) (hfresh : freshAdds s ops) :
    (livePids (runOps s ops).jobs).Nodup := by
  induction ops generalizing s with
  | nil => exact hnd
  | cons op ops ih =>
    cases op with
    | add pid state cmdline =>
      exact ih _ (addjob_livePids_nodup s pid state cmdline hnd hfresh.1) hfresh.2
    | remove pid =>
      exact ih _ (removejob_livePids_nodup s pid hnd) hfresh

/-- C1 (job-id uniqueness), evaluated on the sequence `wrapOps`: every added
pid is positive and not live when it is added, and still two live slots of the
resulting table hold job id 1 (the slots of pid 1 and of pid 17). -/
theorem jid_collision_after_wrap :
    positiveAdds wrapOps ∧ freshAdds (initShell false) wrapOps ∧
    (runOps (initShell false) wrapOps).jobs[0]?
      = some { pid := 1, jid := 1, state := BG, cmdline := "a &\n" } ∧
    (runOps (initShell false) wrapOps).jobs[15]?
      = some { pid := 17, jid := 1, state := BG, cmdline := "a &\n" } ∧
    ¬ (liveJids (runOps (initShell false) wrapOps).jobs).Nodup := by
  decide

/-- C2 as stated fails: on the initialized table two adds of the same pid 5
both succeed, and the two live slots then hold the same pid. -/
theorem pid_uniqueness_fails :
    (addjob (initShell false) 5 BG "a &\n").1 = 1 ∧
    (addjob (addjob (initShell false) 5 BG "a &\n").2 5 BG "b &\n").1 = 1 ∧
    ¬ (livePids (runOps (initShell false) [.add 5 BG "a &\n", .add 5 BG "b &\n"]).jobs).Nodup := by
  decide

/-- C2, amended: for every sequence of add and remove calls on the initialized
job table in which each add is given a pid that is not live at that moment,
the pids of the live slots are pairwise distinct. -/
theorem pid_unique_of_freshAdds (verbose : Bool) (ops : List JobOp)
    (hfresh : freshAdds (initShell verbose) ops) :
    (livePids (runOps (initShell verbose) ops).jobs).Nodup :=
  runOps_livePids_nodup _ ops (by rw [livePids_initShell]; exact List.nodup_nil) hfresh

/-- Witness of `pid_unique_of_freshAdds`: the sequence `wrapOps`. -/
theorem pid_unique_of_freshAdds_witness :
    freshAdds (initShell false) wrapOps ∧
    (livePids (runOps (initShell false) wrapOps).jobs).Nodup :=
  ⟨by decide, pid_unique_of_freshAdds false wrapOps (by decide)⟩

/-! ## Add, then find by pid (C3) -/

/-- C3 as stated fails: in the table `twoJobs` pid 201 is live and stopped in
slot 1; adding pid 201 again as a foreground job succeeds (slot 2), and the
lookup by pid still returns slot 1, whose state and command line are not the
ones just added. -/
theorem add_then_find_fails :
    (addjob twoJobs 201 FG "./other\n").1 = 1 ∧
    deref (addjob twoJobs 201 FG "./other\n").2.jobs
        (getprocessid (addjob twoJobs 201 FG "./other\n").2.jobs 201)
      = some { pid := 201, jid := 2, state := ST, cmdline := "./myspin 5\n" } ∧
    ¬ ∃ j, deref (addjob twoJobs 201 FG "./other\n").2.jobs
          (getprocessid (addjob twoJobs 201 FG "./other\n").2.jobs 201) = some j ∧
        j.pid = 201 ∧ j.state = FG ∧ j.cmdline = "./other\n" := by
  have hfound : deref (addjob twoJobs 201 FG "./other\n").2.jobs
        (getprocessid (addjob twoJobs 201 FG "./other\n").2.jobs 201)
      = some { pid := 201, jid := 2, state := ST, cmdline := "./myspin 5\n" } := by decide
  refine ⟨by decide, hfound, ?_⟩
  rintro ⟨j, hj, _, hstate, _⟩
  rw [hfound] at hj
  cases hj
  exact absurd hstate (by decide)

/-- C3, amended: for every job table in which `pid` is held by no slot, and
every state and command line for which `addjob` succeeds, `getprocessid(pid)`
called immediately afterwards returns a job whose pid, state and command line
equal the inputs. -/
theorem add_then_find (s : Shell) (pid state : Int) (cmdline : String)
    (hfresh : ∀ j ∈ s.jobs, j.pid ≠ pid)
    (hok : (addjob s pid state cmdline).1 = 1) :
    ∃ j, deref (addjob s pid state cmdline).2.jobs
          (getprocessid (addjob s pid state cmdline).2.jobs pid) = some j ∧
      j.pid = pid ∧ j.state = state ∧ j.cmdline = cmdline := by
  rcases addjob_cases s pid state cmdline with ⟨_, h0, _, _⟩ | ⟨hpos, l1, j, l2, hl, _, _, _, hjobs, _⟩
  · rw [h0] at hok; exact absurd hok (by decide)
  · refine ⟨{ pid := pid, jid := s.nextjid, state := state, cmdline := cmdline }, ?_, rfl, rfl, rfl⟩
    have hno : ∀ x ∈ l1, (fun j : job_t => j.pid == pid) x = false := by
      intro x hx
      have := hfresh x (by rw [hl]; simp [hx])
      simpa using this
    have hfs := firstSlot_split (p := fun j : job_t => j.pid == pid) l1
      { pid := pid, jid := s.nextjid, state := state, cmdline := cmdline } l2 hno (by simp)
    have hp : ¬ pid < 1 := by omega
    rw [hjobs]
    simp only [getprocessid, hp, if_false, hfs, deref]
    exact getElem?_split _ _ _

/-- Witness of `add_then_find`: pid 300 added to the table `twoJobs`. -/
theorem add_then_find_witness :
    (∀ j ∈ twoJobs.jobs, j.pid ≠ 300) ∧ (addjob twoJobs 300 FG "./myspin 6\n").1 = 1 ∧
    ∃ j, deref (addjob twoJobs 300 FG "./myspin 6\n").2.jobs
          (getprocessid (addjob twoJobs 300 FG "./myspin 6\n").2.jobs 300) = some j ∧
      j.pid = 300 ∧ j.state = FG ∧ j.cmdline = "./myspin 6\n" :=
  ⟨by decide, by decide, add_then_find twoJobs 300 FG "./myspin 6\n" (by decide) (by decide)⟩

/-! ## Failure of `removejob` and of `addjob` (C4, C5) -/

/-- C4: for every job table and every pid that is less than 1 or is held by
no slot, `removejob(pid)` returns 0 and leaves every slot and the counter
`nextjid` unchanged (indeed the whole shell state). -/
theorem removejob_absent (s : Shell) (pid : Int)
    (h : pid < 1 ∨ ∀ j ∈ s.jobs, j.pid ≠ pid) :
    (removejob s pid).1 = 0 ∧ (removejob s pid).2.jobs = s.jobs ∧
      (removejob s pid).2.nextjid = s.nextjid ∧ (removejob s pid).2 = s := by
  rcases removejob_cases s pid with ⟨_, heq⟩ | ⟨hpos, l1, j, l2, hl, hj, _, _⟩
  · rw [heq]; exact ⟨rfl, rfl, rfl, rfl⟩
  · rcases h with h | h
    · omega
    · exact absurd hj (h j (by rw [hl]; simp))

/-- Witness of `removejob_absent`: pid 300 is held by no slot of `twoJobs`. -/
theorem removejob_absent_witness :
    (300 < 1 ∨ ∀ j ∈ twoJobs.jobs, j.pid ≠ (300 : Int)) ∧
    (removejob twoJobs 300).1 = 0 ∧ (removejob twoJobs 300).2.jobs = twoJobs.jobs ∧
      (removejob twoJobs 300).2.nextjid = twoJobs.nextjid ∧ (removejob twoJobs 300).2 = twoJobs :=
  ⟨by decide, removejob_absent twoJobs 300 (by decide)⟩

/-- C5: for every job table, `addjob` returns 0 exactly when `pid < 1` or no
slot is free (every slot has `pid != 0`); whenever it returns 0 every slot and
the counter `nextjid` are unchanged; and when it does not return 0 it
returns 1. -/
theorem addjob_failure_iff (s : Shell) (pid state : Int) (cmdline : String) :
    ((addjob s pid state cmdline).1 = 0 ↔ (pid < 1 ∨ ∀ j ∈ s.jobs, j.pid ≠ 0)) ∧
    ((addjob s pid state cmdline).1 = 0 →
      (addjob s pid state cmdline).2.jobs = s.jobs ∧
      (addjob s pid state cmdline).2.nextjid = s.nextjid) ∧
    ((addjob s pid state cmdline).1 ≠ 0 → (addjob s pid state cmdline).1 = 1) := by
  rcases addjob_cases s pid state cmdline with
    ⟨hc, h0, hjobs, hnext⟩ | ⟨hpos, l1, j, l2, hl, hj, _, h1, _, _⟩
  · exact ⟨⟨fun _ => hc, fun _ => h0⟩, fun _ => ⟨hjobs, hnext⟩, fun h => absurd h0 h⟩
  · refine ⟨⟨fun h => ?_, fun h => ?_⟩, fun h => ?_, fun _ => h1⟩
    · rw [h1] at h; exact absurd h (by decide)
    · rcases h with h | h
      · omega
      · exact absurd hj (h j (by rw [hl]; simp))
    · rw [h1] at h; exact absurd h (by decide)

/-- Witness of `addjob_failure_iff`: on the full table the add of pid 17 returns
0 and changes neither the slots nor the counter; on `twoJobs` it returns 1. -/
theorem addjob_failure_iff_witness :
    (addjob fullTable 17 BG "a &\n").1 = 0 ∧
    ((addjob fullTable 17 BG "a &\n").2.jobs = fullTable.jobs ∧
      (addjob fullTable 17 BG "a &\n").2.nextjid = fullTable.nextjid) ∧
    (addjob twoJobs 17 BG "a &\n").1 = 1 :=
  ⟨(addjob_failure_iff fullTable 17 BG "a &\n").1.mpr (Or.inr (by decide)),
   (addjob_failure_iff fullTable 17 BG "a &\n").2.1 (by decide),
   (addjob_failure_iff twoJobs 17 BG "a &\n").2.2 (by decide)⟩

/-! ## Removal and the next job id (C6) -/

theorem liveJids_split (l1 : List job_t) (a : job_t) (l2 : List job_t) :
    liveJids (l1 ++ a :: l2)
      = liveJids l1 ++ (if a.pid = 0 then [] else [a.jid]) ++ liveJids l2 := by
  by_cases h : a.pid = 0 <;> simp [liveJids, List.filter_cons, h]

theorem mem_liveJids {jobs : List job_t} {x : Int} :
    x ∈ liveJids jobs ↔ ∃ j ∈ jobs, j.pid ≠ 0 ∧ j.jid = x := by
  simp only [liveJids, List.mem_map, List.mem_filter]
  constructor
  · rintro ⟨j, ⟨hj, hlive⟩, rfl⟩
    exact ⟨j, hj, by simpa using hlive, rfl⟩
  · rintro ⟨j, hj, h0, rfl⟩
    exact ⟨j, ⟨hj, by simpa using h0⟩, rfl⟩

/-- The loop of `maxjid` returns a bound of the start value and of every job
id, and this bound is the start value or one of the job ids. -/
theorem maxjidLoop_spec (l : List job_t) (acc : Int) :
    acc ≤ maxjidLoop l acc ∧ (∀ j ∈ l, j.jid ≤ maxjidLoop l acc) ∧
      (maxjidLoop l acc = acc ∨ ∃ j ∈ l, j.jid = maxjidLoop l acc) := by
  induction l generalizing acc with
  | nil => simp [maxjidLoop]
  | cons a l ih =>
    obtain ⟨h1, h2, h3⟩ := ih (if a.jid > acc then a.jid else acc)
    simp only [maxjidLoop]
    by_cases hgt : a.jid > acc
    · simp only [hgt, if_true] at h1 h2 h3 ⊢
      refine ⟨by omega, ?_, ?_⟩
      · intro j hj
        rcases List.mem_cons.mp hj with rfl | hj
        · exact h1
        · exact h2 j hj
      · right
        rcases h3 with h3 | ⟨j, hj, hjm⟩
        · exact ⟨a, by simp, h3.symm⟩
        · exact ⟨j, by simp [hj], hjm⟩
    · simp only [hgt, if_false] at h1 h2 h3 ⊢
      refine ⟨h1, ?_, ?_⟩
      · intro j hj
        rcases List.mem_cons.mp hj with rfl | hj
        · omega
        · exact h2 j hj
      · rcases h3 with h3 | ⟨j, hj, hjm⟩
        · exact Or.inl h3
        · exact Or.inr ⟨j, by simp [hj], hjm⟩

/-- On a table whose free slots have job id 0 and whose live slots have a
positive job id, `maxjid` is the largest job id among the live slots, and 0
when no slot is live. -/
theorem maxjid_isMaxLiveJid (jobs : List job_t)
    (h : ∀ j ∈ jobs, (j.pid = 0 → j.jid = 0) ∧ (j.pid ≠ 0 → 1 ≤ j.pid ∧ 1 ≤ j.jid)) :
    IsMaxLiveJid jobs (maxjid jobs) := by
  obtain ⟨h0, hub, hex⟩ := maxjidLoop_spec jobs 0
  have hzero : maxjid jobs = 0 → IsMaxLiveJid jobs (maxjid jobs) := by
    intro hm
    left
    refine ⟨?_, hm⟩
    apply List.eq_nil_iff_forall_not_mem.mpr
    intro x hx
    obtain ⟨j, hj, hlive, rfl⟩ := mem_liveJids.mp hx
    have h1 := ((h j hj).2 hlive).2
    have h2 := hub j hj
    have h3 : maxjidLoop jobs 0 = 0 := hm
    omega
  rcases hex with hex | ⟨j, hj, hjm⟩
  · exact hzero hex
  · by_cases hlive : j.pid = 0
    · apply hzero
      have := (h j hj).1 hlive
      show maxjidLoop jobs 0 = 0
      omega
    · right
      refine ⟨mem_liveJids.mpr ⟨j, hj, hlive, hjm⟩, ?_⟩
      intro x hx
      obtain ⟨k, hk, _, rfl⟩ := mem_liveJids.mp hx
      exact hub k hk

theorem tableInv_initShell (verbose : Bool) : TableInv (initShell verbose) := by
  refine ⟨by simp [initShell], ?_⟩
  intro j hj
  simp only [initShell, initjobs, List.map_replicate, clearjob] at hj
  rw [List.eq_of_mem_replicate hj]
  simp

theorem tableInv_addjob (s : Shell) (pid state : Int) (cmdline : String) (h : TableInv s) :
    TableInv (addjob s pid state cmdline).2 := by
  rcases addjob_cases s pid state cmdline with
    ⟨_, _, hjobs, hnext⟩ | ⟨hpos, l1, j, l2, hl, hj, _, _, hjobs, hnext⟩
  · exact ⟨by rw [hnext]; exact h.1, by rw [hjobs]; exact h.2⟩
  · refine ⟨?_, ?_⟩
    · rw [hnext]
      have := h.1
      split_ifs <;> omega
    · rw [hjobs]
      intro x hx
      rcases List.mem_append.mp hx with hx | hx
      · exact h.2 x (by rw [hl]; simp [hx])
      · rcases List.mem_cons.mp hx with rfl | hx
        · have := h.1
          exact ⟨fun h0 => by simp at h0; omega, fun _ => ⟨hpos, this⟩⟩
        · exact h.2 x (by rw [hl]; simp [hx])

theorem tableInv_removejob (s : Shell) (pid : Int) (h : TableInv s) :
    TableInv (removejob s pid).2 := by
  rcases removejob_cases s pid with ⟨_, heq⟩ | ⟨_, l1, j, l2, hl, _, _, heq⟩
  · rw [heq]; exact h
  · rw [heq]
    refine ⟨?_, ?_⟩
    · have := (maxjidLoop_spec (l1 ++ clearjob j :: l2) 0).1
      show 1 ≤ maxjidLoop (l1 ++ clearjob j :: l2) 0 + 1
      omega
    · intro x hx
      rcases List.mem_append.mp hx with hx | hx
      · exact h.2 x (by rw [hl]; simp [hx])
      · rcases List.mem_cons.mp hx with rfl | hx
        · simp [clearjob]
        · exact h.2 x (by rw [hl]; simp [hx])

theorem tableInv_runOps (s : Shell) (ops : List JobOp) (h : TableInv s) :
    TableInv (runOps s ops) := by
  induction ops generalizing s with
  | nil => exact h
  | cons op ops ih =>
    cases op with
    | add pid state cmdline => exact ih _ (tableInv_addjob s pid state cmdline h)
    | remove pid => exact ih _ (tableInv_removejob s pid h)

/-- C6: for every job table reachable from the initialized table by add and
remove calls and every pid live in it, `removejob(pid)` returns 1, clears the
slot `i` of that job (the first slot holding the pid) and leaves all other
slots unchanged; with `m` the largest job id among the remaining live jobs (0
if none remain), every add of a positive pid called next succeeds, fills a
free slot `k` and assigns the job id `m + 1`. -/
theorem removejob_then_next_jid (verbose : Bool) (ops : List JobOp) (pid : Int)
    (hlive : pid ∈ livePids (runOps (initShell verbose) ops).jobs) :
    ∃ i j m,
      (runOps (initShell verbose) ops).jobs[i]? = some j ∧ j.pid = pid ∧
      (removejob (runOps (initShell verbose) ops) pid).1 = 1 ∧
      (removejob (runOps (initShell verbose) ops) pid).2.jobs
        = (runOps (initShell verbose) ops).jobs.set i (clearjob j) ∧
      IsMaxLiveJid (removejob (runOps (initShell verbose) ops) pid).2.jobs m ∧
      ∀ pid2 state cmdline, 1 ≤ pid2 →
        (addjob (removejob (runOps (initShell verbose) ops) pid).2 pid2 state cmdline).1 = 1 ∧
        ∃ k f,
          (removejob (runOps (initShell verbose) ops) pid).2.jobs[k]? = some f ∧ f.pid = 0 ∧
          (addjob (removejob (runOps (initShell verbose) ops) pid).2 pid2 state cmdline).2.jobs
            = (removejob (runOps (initShell verbose) ops) pid).2.jobs.set k
                { pid := pid2, jid := m + 1, state := state, cmdline := cmdline } := by
  have hinv := tableInv_runOps _ ops (tableInv_initShell verbose)
  have hinv2 := tableInv_removejob _ pid hinv
  obtain ⟨hne, j0, hj0, hj0pid⟩ := mem_livePids.mp hlive
  rcases removejob_cases (runOps (initShell verbose) ops) pid with
    ⟨hc, _⟩ | ⟨hpos, l1, j, l2, hl, hj, _, heq⟩
  · rcases hc with hc | hc
    · have := ((hinv.2 j0 hj0).2 (by rw [hj0pid]; exact hne)).1
      omega
    · exact absurd hj0pid (hc j0 hj0)
  · have hjobs : (removejob (runOps (initShell verbose) ops) pid).2.jobs
        = l1 ++ clearjob j :: l2 := by rw [heq]
    have hnext : (removejob (runOps (initShell verbose) ops) pid).2.nextjid
        = maxjid (l1 ++ clearjob j :: l2) + 1 := by rw [heq]
    refine ⟨l1.length, j, maxjid (l1 ++ clearjob j :: l2), ?_, hj, by rw [heq], ?_, ?_, ?_⟩
    · rw [hl]; exact getElem?_split _ _ _
    · rw [hjobs, hl, set_split]
    · rw [hjobs]
      apply maxjid_isMaxLiveJid
      rw [← hjobs]
      exact hinv2.2
    · intro pid2 state cmdline hpid2
      rcases addjob_cases (removejob (runOps (initShell verbose) ops) pid).2 pid2 state cmdline
        with ⟨hc, _⟩ | ⟨_, k1, f, k2, hk, hf, _, h1, hjobs2, _⟩
      · rcases hc with hc | hc
        · omega
        · exact absurd rfl (hc (clearjob j) (by rw [hjobs]; simp))
      · refine ⟨h1, k1.length, f, ?_, hf, ?_⟩
        · rw [hk]; exact getElem?_split _ _ _
        · rw [hjobs2, hnext]
          rw [hk, set_split]

/-- Witness of `removejob_then_next_jid`: jobs 200 (id 1) and 201 (id 2); after
`removejob(200)` the next added job (pid 202) gets job id 3, in slot 0. -/
theorem removejob_then_next_jid_witness :
    (200 : Int) ∈ livePids twoBackground.jobs ∧
    (addjob (removejob twoBackground 200).2 202 BG "c &\n").2.jobs[0]?
      = some { pid := 202, jid := 3, state := BG, cmdline := "c &\n" } ∧
    ∃ i j m,
      twoBackground.jobs[i]? = some j ∧ j.pid = 200 ∧
      (removejob twoBackground 200).1 = 1 ∧
      (removejob twoBackground 200).2.jobs = twoBackground.jobs.set i (clearjob j) ∧
      IsMaxLiveJid (removejob twoBackground 200).2.jobs m ∧
      ∀ pid2 state cmdline, 1 ≤ pid2 →
        (addjob (removejob twoBackground 200).2 pid2 state cmdline).1 = 1 ∧
        ∃ k f,
          (removejob twoBackground 200).2.jobs[k]? = some f ∧ f.pid = 0 ∧
          (addjob (removejob twoBackground 200).2 pid2 state cmdline).2.jobs
            = (removejob twoBackground 200).2.jobs.set k
                { pid := pid2, jid := m + 1, state := state, cmdline := cmdline } :=
  ⟨by decide, by decide,
    removejob_then_next_jid false [.add 200 BG "a &\n", .add 201 BG "b &\n"] 200 (by decide)⟩

/-! ## The jobs listing (C7) -/

theorem liveCount_split (l1 : List job_t) (a : job_t) (l2 : List job_t) :
    liveCount (l1 ++ a :: l2)
      = liveCount l1 + (if a.pid = 0 then 0 else 1) + liveCount l2 := by
  by_cases h : a.pid = 0
  · simp [liveCount, List.filter_cons, h]
  · simp [liveCount, List.filter_cons, h]
    omega

/-- With a state among `FG`, `BG`, `ST` the text that `showjobs` prints for a
live slot is its listing entry; for a free slot it prints nothing. -/
theorem showjob_eq (i : Nat) (j : job_t)
    (h : j.pid ≠ 0 → j.state = FG ∨ j.state = BG ∨ j.state = ST) :
    showjob i j = if j.pid = 0 then "" else listingEntry j := by
  by_cases h0 : j.pid = 0
  · simp [showjob, h0]
  · rcases h h0 with hs | hs | hs <;>
      simp [showjob, listingEntry, h0, hs, FG, BG, ST, String.append_assoc]

theorem showjobsFrom_eq_listing (i : Nat) (jobs : List job_t)
    (h : ∀ j ∈ jobs, j.pid ≠ 0 → j.state = FG ∨ j.state = BG ∨ j.state = ST) :
    showjobsFrom i jobs = listing jobs := by
  induction jobs generalizing i with
  | nil => rfl
  | cons a l ih =>
    have ha := showjob_eq i a (h a (by simp))
    have hl := ih (i + 1) (fun j hj => h j (by simp [hj]))
    simp only [showjobsFrom, ha, hl]
    by_cases h0 : a.pid = 0
    · simp [listing, List.filter_cons, h0]
    · simp [listing, List.filter_cons, h0]

/-- Under adds with a state among `FG`, `BG`, `ST`, every live slot keeps such
a state. -/
theorem runOps_properStates (s : Shell) (ops : List JobOp)
    (h : ∀ j ∈ s.jobs, j.pid ≠ 0 → j.state = FG ∨ j.state = BG ∨ j.state = ST)
    (hst : properStates ops) :
    ∀ j ∈ (runOps s ops).jobs, j.pid ≠ 0 → j.state = FG ∨ j.state = BG ∨ j.state = ST := by
  induction ops generalizing s with
  | nil => exact h
  | cons op ops ih =>
    cases op with
    | add pid state cmdline =>
      refine ih _ ?_ hst.2
      rcases addjob_cases s pid state cmdline with
        ⟨_, _, hjobs, _⟩ | ⟨_, l1, j, l2, hl, _, _, _, hjobs, _⟩
      · show ∀ j ∈ (addjob s pid state cmdline).2.jobs, _
        rw [hjobs]; exact h
      · show ∀ j ∈ (addjob s pid state cmdline).2.jobs, _
        rw [hjobs]
        intro x hx
        rcases List.mem_append.mp hx with hx | hx
        · exact h x (by rw [hl]; simp [hx])
        · rcases List.mem_cons.mp hx with rfl | hx
          · exact fun _ => hst.1
          · exact h x (by rw [hl]; simp [hx])
    | remove pid =>
      refine ih _ ?_ hst
      rcases removejob_cases s pid with ⟨_, heq⟩ | ⟨_, l1, j, l2, hl, _, _, heq⟩
      · show ∀ j ∈ (removejob s pid).2.jobs, _
        rw [heq]; exact h
      · show ∀ j ∈ (removejob s pid).2.jobs, _
        rw [heq]
        intro x hx
        rcases List.mem_append.mp hx with hx | hx
        · exact h x (by rw [hl]; simp [hx])
        · rcases List.mem_cons.mp hx with rfl | hx
          · intro h0; exact absurd rfl h0
          · exact h x (by rw [hl]; simp [hx])

/-- Every successful add makes one more slot live, every successful remove one
less, provided the live pids are positive. -/
theorem runOps_liveCount (s : Shell) (ops : List JobOp) (hinv : TableInv s) :
    liveCount (runOps s ops).jobs + successfulRemoves s ops
      = liveCount s.jobs + successfulAdds s ops := by
  induction ops generalizing s with
  | nil => simp [runOps, successfulRemoves, successfulAdds]
  | cons op ops ih =>
    cases op with
    | add pid state cmdline =>
      have := ih _ (tableInv_addjob s pid state cmdline hinv)
      simp only [runOps, applyOp, successfulRemoves, successfulAdds]
      rcases addjob_cases s pid state cmdline with
        ⟨_, h0, hjobs, _⟩ | ⟨hpos, l1, j, l2, hl, hj, _, h1, hjobs, _⟩
      · rw [hjobs] at this
        rw [h0]
        simp only [show ¬ ((0 : Int) = 1) by decide, if_false]
        omega
      · rw [hjobs, liveCount_split] at this
        have hp : pid ≠ 0 := by omega
        simp only [hp, if_false] at this
        rw [hl, liveCount_split, h1]
        simp only [hj, if_true]
        omega
    | remove pid =>
      have := ih _ (tableInv_removejob s pid hinv)
      simp only [runOps, applyOp, successfulRemoves, successfulAdds]
      rcases removejob_cases s pid with ⟨_, heq⟩ | ⟨hpos, l1, j, l2, hl, hj, _, heq⟩
      · have h1 : (removejob s pid).1 = 0 := by rw [heq]
        have h2 : (removejob s pid).2 = s := by rw [heq]
        rw [h2] at this ⊢
        rw [h1]
        simp only [show ¬ ((0 : Int) = 1) by decide, if_false]
        omega
      · have h1 : (removejob s pid).1 = 1 := by rw [heq]
        have hjobs : (removejob s pid).2.jobs = l1 ++ clearjob j :: l2 := by rw [heq]
        rw [hjobs, liveCount_split] at this
        simp only [clearjob, if_true] at this
        have hp : j.pid ≠ 0 := by omega
        rw [hl, liveCount_split, h1]
        simp only [hp, if_false, if_true]
        omega

theorem liveCount_initShell (verbose : Bool) : liveCount (initShell verbose).jobs = 0 := by
  cases verbose <;> decide

/-- C7: for every job table obtained from the initialized table by a sequence
of add and remove calls whose adds carry a state among `FG`, `BG`, `ST`, of
which N adds and M removes succeed: the text printed by `showjobs` is the
concatenation, in slot order, of one entry `[jid] (pid) <state> cmdline` per
live slot (nothing for a free slot), and the number of these entries is N - M.
Pairwise-distinct pids are not needed for this. -/
theorem showjobs_lists_live_jobs (verbose : Bool) (ops : List JobOp)
    (hst : properStates ops) :
    showjobs (runOps (initShell verbose) ops).jobs
      = listing (runOps (initShell verbose) ops).jobs ∧
    successfulRemoves (initShell verbose) ops ≤ successfulAdds (initShell verbose) ops ∧
    liveCount (runOps (initShell verbose) ops).jobs
      = successfulAdds (initShell verbose) ops - successfulRemoves (initShell verbose) ops := by
  have hcount := runOps_liveCount (initShell verbose) ops (tableInv_initShell verbose)
  rw [liveCount_initShell] at hcount
  refine ⟨?_, by omega, by omega⟩
  apply showjobsFrom_eq_listing
  apply runOps_properStates _ _ _ hst
  intro j hj h0
  simp only [initShell, initjobs, List.map_replicate, clearjob] at hj
  rw [List.eq_of_mem_replicate hj] at h0
  exact absurd rfl h0

/-- Witness of `showjobs_lists_live_jobs`: after `listingOps` (3 successful
adds, 1 successful remove) the listing has the two entries of pids 202 and
201. -/
theorem showjobs_lists_live_jobs_witness :
    properStates listingOps ∧
    showjobs (runOps (initShell false) listingOps).jobs
      = "[3] (202) Stopped ./myspin 6\n[2] (201) Foreground ./myspin 5\n" ∧
    successfulAdds (initShell false) listingOps = 3 ∧
    successfulRemoves (initShell false) listingOps = 1 ∧
    (showjobs (runOps (initShell false) listingOps).jobs
      = listing (runOps (initShell false) listingOps).jobs ∧
    successfulRemoves (initShell false) listingOps ≤ successfulAdds (initShell false) listingOps ∧
    liveCount (runOps (initShell false) listingOps).jobs
      = successfulAdds (initShell false) listingOps
        - successfulRemoves (initShell false) listingOps) :=
  ⟨by decide, by decide, by decide, by decide,
    showjobs_lists_live_jobs false listingOps (by decide)⟩

/-! ## At most one foreground job (C8) -/

theorem fgCount_split (l1 : List job_t) (a : job_t) (l2 : List job_t) :
    fgCount (l1 ++ a :: l2)
      = fgCount l1 + (if a.state = FG then 1 else 0) + fgCount l2 := by
  by_cases h : a.state = FG
  · simp [fgCount, List.countP_cons, h]
    omega
  · simp [fgCount, List.countP_cons, h]

theorem split_of_getElem? {jobs : List job_t} {i : Nat} {j : job_t} (h : jobs[i]? = some j) :
    ∃ l1 l2, jobs = l1 ++ j :: l2 ∧ l1.length = i := by
  obtain ⟨hi, hj⟩ := List.getElem?_eq_some_iff.mp h
  refine ⟨jobs.take i, jobs.drop (i + 1), ?_, ?_⟩
  · rw [← hj]; simp
  · simp; omega

/-- Writing a slot adds at most one Foreground slot. -/
theorem fgCount_updateSlot_le_succ (jobs : List job_t) (i : Nat) (f : job_t → job_t) :
    fgCount (updateSlot jobs i f) ≤ fgCount jobs + 1 := by
  cases h : jobs[i]? with
  | none => simp [updateSlot, h]
  | some j =>
    obtain ⟨l1, l2, rfl, rfl⟩ := split_of_getElem? h
    rw [updateSlot_split]
    simp only [fgCount_split]
    split_ifs <;> omega

/-- Writing a slot with a state other than `FG` adds no Foreground slot. -/
theorem fgCount_updateSlot_le (jobs : List job_t) (i : Nat) (f : job_t → job_t)
    (hf : ∀ j, (f j).state ≠ FG) :
    fgCount (updateSlot jobs i f) ≤ fgCount jobs := by
  cases h : jobs[i]? with
  | none => simp [updateSlot, h]
  | some j =>
    obtain ⟨l1, l2, rfl, rfl⟩ := split_of_getElem? h
    rw [updateSlot_split]
    simp only [fgCount_split, hf j, if_false]
    split_ifs <;> omega

/-- A successful or failed `addjob` adds at most one Foreground slot, and none
when the new state is not `FG`. -/
theorem fgCount_addjob (s : Shell) (pid state : Int) (cmdline : String) :
    fgCount (addjob s pid state cmdline).2.jobs
      ≤ fgCount s.jobs + (if state = FG then 1 else 0) := by
  rcases addjob_cases s pid state cmdline with
    ⟨_, _, hjobs, _⟩ | ⟨_, l1, j, l2, hl, _, _, _, hjobs, _⟩
  · rw [hjobs]; omega
  · rw [hjobs, hl]
    simp only [fgCount_split]
    split_ifs <;> omega

/-- A call of `removejob` adds no Foreground slot. -/
theorem fgCount_removejob (s : Shell) (pid : Int) :
    fgCount (removejob s pid).2.jobs ≤ fgCount s.jobs := by
  rcases removejob_cases s pid with ⟨_, heq⟩ | ⟨_, l1, j, l2, hl, _, _, heq⟩
  · rw [heq]
  · rw [heq, hl]
    simp only [fgCount_split, clearjob, UNDEF, FG]
    split_ifs <;> omega

/-- The built-in `bg`/`fg` adds at most one Foreground slot, and none unless it
is called as `fg`. -/
theorem fgCount_do_bgfg_core (s : Shell) (argv : List String) :
    fgCount (do_bgfg_core s argv).1.jobs
      ≤ fgCount s.jobs + (if argv.getD 0 "" = "fg" then 1 else 0) := by
  unfold do_bgfg_core
  simp only
  split
  · simp
  · split
    · simp
    · split_ifs with hfg
      · exact fgCount_updateSlot_le_succ _ _ _
      · simp only [Nat.add_zero]
        exact fgCount_updateSlot_le _ _ _ (fun j => by simp [FG, BG, ST])

/-- One status processed by the child-status handler adds no Foreground slot. -/
theorem fgCount_sigchld_body (s s1 : Shell) (pid : Int) (status : Status)
    (h : sigchld_body s pid status = some s1) :
    fgCount s1.jobs ≤ fgCount s.jobs := by
  unfold sigchld_body at h
  split_ifs at h
  · split at h
    · exact absurd h (by simp)
    · simp only [Option.some.injEq] at h
      subst h
      exact fgCount_updateSlot_le _ _ _ (fun j => by simp [FG, BG, ST])
  · simp only [Option.some.injEq] at h
    subst h
    exact fgCount_removejob _ _
  · simp only [Option.some.injEq] at h
    subst h
    exact fgCount_removejob _ _
  · simp only [Option.some.injEq] at h
    subst h
    exact le_refl _

theorem fgCount_initShell (verbose : Bool) : fgCount (initShell verbose).jobs = 0 := by
  cases verbose <;> decide

/-- Guarded runs keep at most one Foreground slot. -/
theorem runSteps_fgCount (s s1 : Shell) (steps : List ShellStep)
    (h0 : fgCount s.jobs ≤ 1) (h : runSteps s steps = some s1) :
    fgCount s1.jobs ≤ 1 := by
  induction steps generalizing s with
  | nil =>
    simp only [runSteps, Option.some.injEq] at h
    subst h
    exact h0
  | cons st rest ih =>
    simp only [runSteps] at h
    split_ifs at h with hguard
    cases hstep : shellStep s st with
    | none => rw [hstep] at h; exact absurd h (by simp)
    | some s2 =>
      rw [hstep] at h
      refine ih s2 ?_ h
      have hguard2 : makesForeground st = true → fgCount s.jobs = 0 := by
        intro hm
        by_contra hne
        exact hguard (by simp [hm, hne])
      cases st with
      | launch pid bg cmdline =>
        simp only [shellStep, Option.some.injEq] at hstep
        subst hstep
        cases bg with
        | true =>
          have := fgCount_addjob s pid BG cmdline
          simp only [show ¬ (BG = FG) by decide, if_false] at this
          simp only [if_true]
          omega
        | false =>
          have := fgCount_addjob s pid FG cmdline
          have := hguard2 rfl
          simp only [Bool.false_eq_true, if_false, if_true] at *
          omega
      | bgfg argv =>
        simp only [shellStep, Option.some.injEq] at hstep
        subst hstep
        have := fgCount_do_bgfg_core s argv
        by_cases hfg : argv.getD 0 "" = "fg"
        · have := hguard2 (by unfold makesForeground; exact decide_eq_true hfg)
          simp only [hfg, if_true] at *
          omega
        · simp only [hfg, if_false] at this
          omega
      | child pid status =>
        have := fgCount_sigchld_body s s2 pid status hstep
        omega

/-- C8 (at most one Foreground job): in every state reached from the
initialized job table by shell steps (registration of a launched command as
Foreground or Background, the built-ins fg and bg, child statuses processed by
the child-status handler), where a step that makes a job Foreground is taken
only when no slot is Foreground, at most one slot has state `FG`. -/
theorem at_most_one_foreground (verbose : Bool) (steps : List ShellStep) (s : Shell)
    (h : runSteps (initShell verbose) steps = some s) :
    fgCount s.jobs ≤ 1 :=
  runSteps_fgCount _ s steps (by rw [fgCount_initShell]; omega) h

/-- Witness of `at_most_one_foreground`: the run of `sessionSteps` is allowed and
does not fault, and its prefix of four steps ends with one slot Foreground. -/
theorem at_most_one_foreground_witness :
    (∃ s, runSteps (initShell false) (sessionSteps.take 4) = some s ∧ fgCount s.jobs = 1) ∧
    ∃ s, runSteps (initShell false) sessionSteps = some s ∧ fgCount s.jobs ≤ 1 := by
  refine ⟨⟨_, rfl, by decide⟩, ?_⟩
  have h : (runSteps (initShell false) sessionSteps).isSome = true := by decide
  obtain ⟨s, hs⟩ := Option.isSome_iff_exists.mp h
  exact ⟨s, hs, at_most_one_foreground false sessionSteps s hs⟩

/-! ## The child-status handler on the foreground job (C9, C10) -/

/-- When every slot in state `FG` is free, `fgpid` returns 0. -/
theorem fgpid_eq_zero (jobs : List job_t) (h : ∀ j ∈ jobs, j.state = FG → j.pid = 0) :
    fgpid jobs = 0 := by
  unfold fgpid
  cases hfg : firstSlot (fun j => j.state == FG) jobs with
  | none => rfl
  | some k =>
    obtain ⟨k1, x, k2, hk, hklen, hx, _⟩ := firstSlot_eq_some hfg
    have hget : jobs[k]? = some x := by
      rw [hk, ← hklen]; exact getElem?_split _ _ _
    simp only [hget]
    exact h x (by rw [hk]; simp) (by simpa using hx)

/-- C9: for every job table with a free slot and no Foreground job, and every
positive pid held by no slot: registering `pid` as Foreground succeeds, and
when the child-status handler then processes an "exited normally" status for
`pid`, the job is removed (`getprocessid(pid)` is `NULL`), `fgpid` returns 0,
and the table is the one before the registration except that the slot `i`
that was used, free before, is cleared. -/
theorem foreground_job_exit (s : Shell) (pid code : Int) (cmdline : String)
    (hfree : ∃ j ∈ s.jobs, j.pid = 0)
    (hnofg : ∀ j ∈ s.jobs, j.pid ≠ 0 → j.state ≠ FG)
    (hpos : 0 < pid)
    (hfresh : ∀ j ∈ s.jobs, j.pid ≠ pid) :
    (addjob s pid FG cmdline).1 = 1 ∧
    ∃ s1 i j,
      sigchld_handler (addjob s pid FG cmdline).2 [(pid, .exited code)] = some s1 ∧
      getprocessid s1.jobs pid = none ∧
      fgpid s1.jobs = 0 ∧
      s.jobs[i]? = some j ∧ j.pid = 0 ∧ s1.jobs = s.jobs.set i (clearjob j) := by
  rcases addjob_cases s pid FG cmdline with
    ⟨hc, _⟩ | ⟨_, l1, j, l2, hl, hj, hl1, h1, hjobs, _⟩
  · rcases hc with hc | hc
    · omega
    · obtain ⟨j, hj, hj0⟩ := hfree
      exact absurd hj0 (hc j hj)
  · refine ⟨h1, ?_⟩
    have hp : ¬ pid < 1 := by omega
    have hno : ∀ x ∈ l1, (fun j : job_t => j.pid == pid) x = false := by
      intro x hx
      have := hfresh x (by rw [hl]; simp [hx])
      simpa using this
    have hfs := firstSlot_split (p := fun j : job_t => j.pid == pid) l1
      { pid := pid, jid := s.nextjid, state := FG, cmdline := cmdline } l2 hno (by simp)
    have hrem : (removejob (addjob s pid FG cmdline).2 pid).2.jobs
        = l1 ++ clearjob j :: l2 := by
      simp only [removejob, hp, if_false, hjobs, hfs, updateSlot_split]
      rfl
    refine ⟨(removejob (addjob s pid FG cmdline).2 pid).2, l1.length, j, ?_, ?_, ?_, ?_, hj, ?_⟩
    · simp [sigchld_handler, sigchld_body, hpos, WIFSTOPPED, WIFSIGNALED, WIFEXITED]
    · rw [hrem]
      simp only [getprocessid, hp, if_false]
      apply firstSlot_eq_none.mpr
      intro x hx
      rcases List.mem_append.mp hx with hx | hx
      · exact hno x hx
      · rcases List.mem_cons.mp hx with rfl | hx
        · simp [clearjob]; omega
        · have := hfresh x (by rw [hl]; simp [hx])
          simpa using this
    · rw [hrem]
      apply fgpid_eq_zero
      intro x hmem hxfg
      rcases List.mem_append.mp hmem with hm | hm
      · by_contra h0
        exact hnofg x (by rw [hl]; simp [hm]) h0 hxfg
      · rcases List.mem_cons.mp hm with rfl | hm
        · rfl
        · by_contra h0
          exact hnofg x (by rw [hl]; simp [hm]) h0 hxfg
    · rw [hl]; exact getElem?_split _ _ _
    · rw [hrem, hl, set_split]

/-- Witness of `foreground_job_exit`: pid 100 on the empty table. -/
theorem foreground_job_exit_witness :
    (∃ j ∈ (initShell false).jobs, j.pid = 0) ∧
    (∀ j ∈ (initShell false).jobs, j.pid ≠ 0 → j.state ≠ FG) ∧
    (∀ j ∈ (initShell false).jobs, j.pid ≠ 100) ∧
    fgpid (addjob (initShell false) 100 FG "./myspin 4\n").2.jobs = 100 ∧
    ((addjob (initShell false) 100 FG "./myspin 4\n").1 = 1 ∧
    ∃ s1 i j,
      sigchld_handler (addjob (initShell false) 100 FG "./myspin 4\n").2 [(100, .exited 0)]
        = some s1 ∧
      getprocessid s1.jobs 100 = none ∧
      fgpid s1.jobs = 0 ∧
      (initShell false).jobs[i]? = some j ∧ j.pid = 0 ∧
      s1.jobs = (initShell false).jobs.set i (clearjob j)) :=
  ⟨by decide, by decide, by decide, by decide,
    foreground_job_exit (initShell false) 100 0 "./myspin 4\n"
      (by decide) (by decide) (by decide) (by decide)⟩

/-- C10: for every job table in which the job of `pid` (slot `i`, contents
`j`) is in state `FG`, and every signal number `sig`: when the child-status
handler processes a "stopped by signal sig" status for `pid`, slot `i` gets
state `ST` while its pid, job id and command line and every other slot and the
counter are unchanged, the notice `Job [jid] (pid) Stopped by signal sig` with
that job's id is printed, and the wait gate for `pid` then returns at once;
a wait gate that was blocked on `pid` when the handler ran returns as well. -/
theorem foreground_job_stopped (s : Shell) (pid sig : Int) (i : Nat) (j : job_t)
    (pending : List (List (Int × Status)))
    (hfind : getprocessid s.jobs pid = some i)
    (hj : s.jobs[i]? = some j)
    (hfg : j.state = FG) :
    ∃ s1,
      sigchld_handler s [(pid, .stopped sig)] = some s1 ∧
      s1.jobs = s.jobs.set i { pid := j.pid, jid := j.jid, state := ST, cmdline := j.cmdline } ∧
      j.pid = pid ∧
      s1.nextjid = s.nextjid ∧
      s1.out = s.out ++ ("Job [" ++ fmt_d j.jid ++ "] (" ++ fmt_d pid ++ ") Stopped by signal "
        ++ fmt_d sig ++ "\n") ∧
      waitfg s1 pid pending = .returned s1 ∧
      waitfg s pid ([(pid, .stopped sig)] :: pending) = .returned s1 := by
  have hp : ¬ pid < 1 := by
    intro hlt
    simp [getprocessid, hlt] at hfind
  have hpos : 0 < pid := by omega
  have hfs : firstSlot (fun j => j.pid == pid) s.jobs = some i := by
    simpa [getprocessid, hp] using hfind
  obtain ⟨l1, j', l2, hl, hlen, hj', hno⟩ := firstSlot_eq_some hfs
  subst hlen
  have hjj : j' = j := by
    rw [hl, getElem?_split] at hj
    exact Option.some.inj hj
  subst hjj
  have hpid : j'.pid = pid := by simpa using hj'
  have hupd : updateSlot s.jobs l1.length (fun j => { j with state := ST })
      = l1 ++ { pid := j'.pid, jid := j'.jid, state := ST, cmdline := j'.cmdline } :: l2 := by
    rw [hl, updateSlot_split]
  have hfs2 : firstSlot (fun j => j.pid == pid)
      (l1 ++ { pid := j'.pid, jid := j'.jid, state := ST, cmdline := j'.cmdline } :: l2)
      = some l1.length := firstSlot_split l1 _ l2 hno (by simpa using hpid)
  have hjid : get_jid_from_pid
      (l1 ++ { pid := j'.pid, jid := j'.jid, state := ST, cmdline := j'.cmdline } :: l2) pid
      = j'.jid := by
    simp only [get_jid_from_pid, hp, if_false, hfs2, getElem?_split]
  have hbody : sigchld_body s pid (.stopped sig)
      = some { s with
          jobs := l1 ++ { pid := j'.pid, jid := j'.jid, state := ST, cmdline := j'.cmdline } :: l2
          out := s.out ++ ("Job [" ++ fmt_d j'.jid ++ "] (" ++ fmt_d pid
            ++ ") Stopped by signal " ++ fmt_d sig ++ "\n") } := by
    simp only [sigchld_body, WIFSTOPPED, if_true, hfind, hupd, hjid, WSTOPSIG]
  have hhandler : sigchld_handler s [(pid, .stopped sig)]
      = some { s with
          jobs := l1 ++ { pid := j'.pid, jid := j'.jid, state := ST, cmdline := j'.cmdline } :: l2
          out := s.out ++ ("Job [" ++ fmt_d j'.jid ++ "] (" ++ fmt_d pid
            ++ ") Stopped by signal " ++ fmt_d sig ++ "\n") } := by
    simp only [sigchld_handler, gt_iff_lt, hpos, if_true, hbody]
  have hgate : ∀ pending' : List (List (Int × Status)),
      waitfg { s with
          jobs := l1 ++ { pid := j'.pid, jid := j'.jid, state := ST, cmdline := j'.cmdline } :: l2
          out := s.out ++ ("Job [" ++ fmt_d j'.jid ++ "] (" ++ fmt_d pid
            ++ ") Stopped by signal " ++ fmt_d sig ++ "\n") } pid pending'
        = .returned { s with
          jobs := l1 ++ { pid := j'.pid, jid := j'.jid, state := ST, cmdline := j'.cmdline } :: l2
          out := s.out ++ ("Job [" ++ fmt_d j'.jid ++ "] (" ++ fmt_d pid
            ++ ") Stopped by signal " ++ fmt_d sig ++ "\n") } := by
    intro pending'
    simp only [waitfg, getprocessid, hp, if_false, hfs2]
    cases pending' <;>
      simp only [waitfgLoop, getElem?_split, show ¬ (ST = FG) by decide, if_false]
  refine ⟨_, hhandler, ?_, hpid, rfl, rfl, hgate pending, ?_⟩
  · rw [hl, set_split]
  · simp only [waitfg, hfind, waitfgLoop, hj, hfg, if_true, hhandler]
    have := hgate pending
    simp only [waitfg, getprocessid, hp, if_false, hfs2] at this
    exact this

/-- Witness of `foreground_job_stopped`: pid 100 is stopped by signal 20
(SIGTSTP); before the status is processed the wait gate on pid 100 is blocked. -/
theorem foreground_job_stopped_witness :
    waitfg foregroundJob 100 [] = .blocked foregroundJob ∧
    ∃ s1,
      sigchld_handler foregroundJob [(100, .stopped 20)] = some s1 ∧
      s1.jobs = foregroundJob.jobs.set 0
        { pid := 100, jid := 1, state := ST, cmdline := "./myspin 4\n" } ∧
      (100 : Int) = 100 ∧
      s1.nextjid = foregroundJob.nextjid ∧
      s1.out = foregroundJob.out ++ ("Job [" ++ fmt_d 1 ++ "] (" ++ fmt_d 100
        ++ ") Stopped by signal " ++ fmt_d 20 ++ "\n") ∧
      waitfg s1 100 [] = .returned s1 ∧
      waitfg foregroundJob 100 ([(100, .stopped 20)] :: []) = .returned s1 :=
  ⟨by decide,
    foreground_job_stopped foregroundJob 100 20 0
      { pid := 100, jid := 1, state := FG, cmdline := "./myspin 4\n" } []
      (by decide) (by decide) (by decide)⟩

/-! ## Decimal notation read back by `atoi` -/

theorem isdigit_digitChar (k : Nat) (hk : k < 10) :
    isdigit (Nat.digitChar k) = true ∧ (((Nat.digitChar k).toNat : Int) - 48) = k := by
  interval_cases k <;> exact ⟨by decide, by decide⟩

theorem toDigitsCore_append (fuel n : Nat) (ds : List Char) :
    Nat.toDigitsCore 10 fuel n ds = Nat.toDigitsCore 10 fuel n [] ++ ds := by
  induction fuel generalizing n ds with
  | zero => simp [Nat.toDigitsCore]
  | succ fuel ih =>
    simp only [Nat.toDigitsCore]
    split_ifs
    · simp
    · rw [ih (n / 10) (Nat.digitChar (n % 10) :: ds), ih (n / 10) [Nat.digitChar (n % 10)]]
      simp

/-- On a list of decimal digits the digit loop of `atoi` is the left fold that
appends one digit at a time. -/
theorem atoiDigits_eq_foldl (l : List Char) (acc : Int) (h : ∀ c ∈ l, isdigit c = true) :
    atoiDigits l acc = l.foldl (fun a c => a * 10 + ((c.toNat : Int) - 48)) acc := by
  induction l generalizing acc with
  | nil => rfl
  | cons c cs ih =>
    have hc := h c (by simp)
    simp only [atoiDigits, hc, if_true, List.foldl_cons]
    exact ih _ (fun x hx => h x (by simp [hx]))

/-- With enough fuel the digits that `Nat.toDigitsCore` produces are decimal
digits, there is at least one, and they fold back to the number. -/
theorem toDigitsCore_spec (fuel n : Nat) (h : n < fuel) :
    (∀ c ∈ Nat.toDigitsCore 10 fuel n [], isdigit c = true) ∧
    Nat.toDigitsCore 10 fuel n [] ≠ [] ∧
    (Nat.toDigitsCore 10 fuel n []).foldl (fun a c => a * 10 + ((c.toNat : Int) - 48)) 0
      = (n : Int) := by
  induction fuel generalizing n with
  | zero => omega
  | succ fuel ih =>
    have hd := isdigit_digitChar (n % 10) (Nat.mod_lt _ (by decide))
    simp only [Nat.toDigitsCore]
    by_cases h0 : n / 10 = 0
    · simp only [h0, if_true]
      refine ⟨by simpa using hd.1, by simp, ?_⟩
      simp only [List.foldl_cons, List.foldl_nil, hd.2]
      omega
    · simp only [h0, if_false]
      rw [toDigitsCore_append]
      have hlt : n / 10 < fuel := by omega
      obtain ⟨h1, h2, h3⟩ := ih (n / 10) hlt
      refine ⟨?_, by simp, ?_⟩
      · intro c hc
        rcases List.mem_append.mp hc with hc | hc
        · exact h1 c hc
        · simp only [List.mem_singleton] at hc
          rw [hc]; exact hd.1
      · simp only [List.foldl_append, List.foldl_cons, List.foldl_nil, h3, hd.2]
        omega

/-- The text printed by `%d` for an `int` that is not negative starts with a
decimal digit, holds only decimal digits, and `atoi` reads the number back. -/
theorem atoi_fmt_d (n : Nat) (hn : (n : Int) ≤ INT_MAX) :
    (∀ c ∈ (fmt_d (n : Int)).toList, isdigit c = true) ∧
    (∃ c cs, (fmt_d (n : Int)).toList = c :: cs ∧ isdigit c = true) ∧
    atoi (fmt_d (n : Int)).toList = (n : Int) := by
  obtain ⟨h1, h2, h3⟩ := toDigitsCore_spec (n + 1) n (by omega)
  have hrepr : (fmt_d (n : Int)).toList = Nat.toDigitsCore 10 (n + 1) n [] := rfl
  rw [hrepr]
  cases hl : Nat.toDigitsCore 10 (n + 1) n [] with
  | nil => exact absurd hl h2
  | cons c cs =>
    rw [hl] at h1 h3
    have hc : isdigit c = true := h1 c (by simp)
    refine ⟨h1, ⟨c, cs, rfl, hc⟩, ?_⟩
    have hrange : 48 ≤ c.toNat ∧ c.toNat ≤ 57 := by simpa [isdigit] using hc
    have hsp : isspace c = false := by
      simp only [isspace, decide_eq_false_iff_not]
      omega
    have hminus : c ≠ '-' := by
      intro he; rw [he] at hrange; revert hrange; decide
    have hplus : c ≠ '+' := by
      intro he; rw [he] at hrange; revert hrange; decide
    have hval : strtol (c :: cs) = (n : Int) := by
      simp only [strtol, List.dropWhile_cons, hsp, Bool.false_eq_true, if_false, hminus, hplus]
      rw [atoiDigits_eq_foldl _ _ h1, h3]
      simp only [LONG_MAX, INT_MAX] at hn ⊢
      split_ifs <;> omega
    simp only [atoi, hval, toInt32, INT_MAX] at hn ⊢
    omega

/-! ## The built-ins bg and fg: unknown job or process (C11) -/

/-- A job id that no live slot holds is not found by `getjobid`, on a table
whose free slots are cleared. -/
theorem getjobid_none (jobs : List job_t) (jid : Int)
    (hinv : SlotsInv jobs) (hno : jid ∉ liveJids jobs) :
    getjobid jobs jid = none := by
  unfold getjobid
  split_ifs with hlt
  · rfl
  · apply firstSlot_eq_none.mpr
    intro j hj
    by_cases hlive : j.pid = 0
    · have := (hinv j hj).1 hlive
      simp only [beq_eq_false_iff_ne, ne_eq]
      omega
    · simp only [beq_eq_false_iff_ne, ne_eq]
      intro heq
      exact hno (mem_liveJids.mpr ⟨j, hj, hlive, heq⟩)

/-- A pid that no live slot holds is not found by `getprocessid`. -/
theorem getprocessid_none (jobs : List job_t) (pid : Int) (hno : pid ∉ livePids jobs) :
    getprocessid jobs pid = none := by
  unfold getprocessid
  split_ifs with hlt
  · rfl
  · apply firstSlot_eq_none.mpr
    intro j hj
    simp only [beq_eq_false_iff_ne, ne_eq]
    intro heq
    exact hno (mem_livePids.mpr ⟨by omega, j, hj, heq⟩)

/-- C11: for every job table (free slots cleared) and every fg or bg
invocation `cmd arg ...` whose argument is `%N` with no live job of id `N`, or
the decimal notation of a pid `p` with no live job of that pid, where the
number (`n` below) is a value of the type `int`: `do_bgfg` prints the
diagnostic (`%N: No such job exists` or `(p): No such process`), sends no
signal, leaves the job table unchanged and returns without entering the wait
gate. -/
theorem do_bgfg_unknown_target (s : Shell) (cmd : String) (more : List String) (n : Nat)
    (pending : List (List (Int × Status)))
    (hinv : SlotsInv s.jobs) (hn : (n : Int) ≤ INT_MAX) :
    ((n : Int) ∉ liveJids s.jobs →
      do_bgfg s (cmd :: ("%" ++ fmt_d n) :: more) pending
        = .returned { s with out := s.out ++ ("%" ++ fmt_d n ++ ": No such job exists\n") }) ∧
    ((n : Int) ∉ livePids s.jobs →
      do_bgfg s (cmd :: fmt_d n :: more) pending
        = .returned { s with out := s.out ++ ("(" ++ fmt_d n ++ "): No such process\n") }) := by
  obtain ⟨_, ⟨c, cs, hcs, hc⟩, hatoi⟩ := atoi_fmt_d n hn
  constructor
  · intro hno
    have hlist : ("%" ++ fmt_d (n : Int)).toList = '%' :: (fmt_d (n : Int)).toList := by
      simp [String.toList]
    have hnone := getjobid_none s.jobs n hinv hno
    simp only [do_bgfg, do_bgfg_core, List.getElem?_cons_succ, List.getElem?_cons_zero, hlist,
      if_true, hatoi, hnone]
  · intro hno
    have hnone := getprocessid_none s.jobs n hno
    have hpct : c ≠ '%' := by
      intro he; rw [he] at hc; revert hc; decide
    rw [hcs] at hatoi
    simp only [do_bgfg, do_bgfg_core, List.getElem?_cons_succ, List.getElem?_cons_zero, hcs,
      hpct, if_false, hc, if_true, hatoi, hnone]

/-- Witness of `do_bgfg_unknown_target`: `fg %1` on the empty table, and `bg 300`
on a table that holds pids 200 and 201. -/
theorem do_bgfg_unknown_target_witness :
    SlotsInv (initShell false).jobs ∧ ((1 : Nat) : Int) ≤ INT_MAX ∧
    ((1 : Nat) : Int) ∉ liveJids (initShell false).jobs ∧
    do_bgfg (initShell false) ["fg", "%1"] []
      = .returned { initShell false with out := "%1: No such job exists\n" } ∧
    SlotsInv twoJobs.jobs ∧ ((300 : Nat) : Int) ≤ INT_MAX ∧
    ((300 : Nat) : Int) ∉ livePids twoJobs.jobs ∧
    do_bgfg twoJobs ["bg", "300"] []
      = .returned { twoJobs with out := "(300): No such process\n" } :=
  ⟨by decide, by decide, by decide,
    (do_bgfg_unknown_target (initShell false) "fg" [] 1 [] (by decide) (by decide)).1
      (by decide),
    by decide, by decide, by decide,
    (do_bgfg_unknown_target twoJobs "bg" [] 300 [] (by decide) (by decide)).2 (by decide)⟩

/-- Beyond the range of `int` the argument is read as its low 32 bits: on the
table `twoJobs`, `bg 4294967497` resolves pid 201 and `bg %4294967298` job 2,
and `fg 2147483648` names the pid -2147483648. -/
theorem do_bgfg_argument_truncated :
    do_bgfg twoJobs ["bg", "4294967497"] []
      = .returned { twoJobs with
          kills := [(-201, SIGCONT)]
          out := "[2] (201) ./myspin 5\n"
          jobs := twoJobs.jobs.set 1
            { pid := 201, jid := 2, state := BG, cmdline := "./myspin 5\n" } } ∧
    do_bgfg twoJobs ["bg", "%4294967298"] []
      = .returned { twoJobs with
          kills := [(-201, SIGCONT)]
          out := "[2] (201) ./myspin 5\n"
          jobs := twoJobs.jobs.set 1
            { pid := 201, jid := 2, state := BG, cmdline := "./myspin 5\n" } } ∧
    do_bgfg twoJobs ["fg", "2147483648"] []
      = .returned { twoJobs with out := "(-2147483648): No such process\n" } := by
  decide

/-! ## The built-ins bg and fg on a live job (C12) -/

/-- On a table with cleared free slots and pairwise-distinct live job ids, the
job id of a live slot is found in that slot. -/
theorem getjobid_of_live (jobs : List job_t) (i : Nat) (J : job_t)
    (hinv : SlotsInv jobs) (hjids : (liveJids jobs).Nodup)
    (hJ : jobs[i]? = some J) (hlive : J.pid ≠ 0) :
    getjobid jobs J.jid = some i := by
  obtain ⟨l1, l2, rfl, rfl⟩ := split_of_getElem? hJ
  have hpos := ((hinv J (by simp)).2 hlive).2
  have hlt : ¬ J.jid < 1 := by omega
  rw [liveJids_split] at hjids
  simp only [hlive, if_false, List.append_assoc, List.singleton_append] at hjids
  have hnot := (List.nodup_cons.mp (List.nodup_middle.mp hjids)).1
  simp only [getjobid, hlt, if_false]
  apply firstSlot_split
  · intro x hx
    simp only [beq_eq_false_iff_ne, ne_eq]
    intro heq
    by_cases hx0 : x.pid = 0
    · have := (hinv x (by simp [hx])).1 hx0
      omega
    · exact hnot (List.mem_append_left _ (mem_liveJids.mpr ⟨x, hx, hx0, heq⟩))
  · simp

/-- On a table with positive and pairwise-distinct live pids, the pid of a live
slot is found in that slot. -/
theorem getprocessid_of_live (jobs : List job_t) (i : Nat) (J : job_t)
    (hinv : SlotsInv jobs) (hpids : (livePids jobs).Nodup)
    (hJ : jobs[i]? = some J) (hlive : J.pid ≠ 0) :
    getprocessid jobs J.pid = some i := by
  obtain ⟨l1, l2, rfl, rfl⟩ := split_of_getElem? hJ
  have hpos := ((hinv J (by simp)).2 hlive).1
  have hlt : ¬ J.pid < 1 := by omega
  rw [livePids_split] at hpids
  simp only [hlive, if_false, List.append_assoc, List.singleton_append] at hpids
  have hnot := (List.nodup_cons.mp (List.nodup_middle.mp hpids)).1
  simp only [getprocessid, hlt, if_false]
  apply firstSlot_split
  · intro x hx
    simp only [beq_eq_false_iff_ne, ne_eq]
    intro heq
    exact hnot (List.mem_append_left _ (mem_livePids.mpr ⟨hlive, x, hx, heq⟩))
  · simp

/-- The two ways to address a live job, `%jid` and `pid` in decimal notation,
resolve to the same slot in `do_bgfg`: what the function does after the
lookup, for the slot `i` with contents `J`. -/
theorem do_bgfg_core_resolved (s : Shell) (i : Nat) (J : job_t) (cmd arg : String)
    (more : List String)
    (hinv : SlotsInv s.jobs)
    (hpids : (livePids s.jobs).Nodup) (hjids : (liveJids s.jobs).Nodup)
    (hJ : s.jobs[i]? = some J) (hlive : J.pid ≠ 0)
    (hint : J.pid ≤ INT_MAX ∧ J.jid ≤ INT_MAX)
    (harg : arg = "%" ++ fmt_d J.jid ∨ arg = fmt_d J.pid) :
    do_bgfg_core s (cmd :: arg :: more)
      = if cmd = "fg" then
          ({ s with
              kills := s.kills ++ [(-J.pid, SIGCONT)]
              jobs := s.jobs.set i { J with state := FG } }, some J.pid)
        else
          ({ s with
              kills := s.kills ++ [(-J.pid, SIGCONT)]
              out := s.out ++ ("[" ++ fmt_d J.jid ++ "] (" ++ fmt_d J.pid ++ ") " ++ J.cmdline)
              jobs := s.jobs.set i { J with state := BG } }, none) := by
  have hpos := (hinv J (List.getElem?_mem hJ)).2 hlive
  have hset : ∀ f : job_t → job_t, updateSlot s.jobs i f = s.jobs.set i (f J) := by
    intro f; simp only [updateSlot, hJ]
  have hget : ∀ a : job_t, (s.jobs.set i a)[i]? = some a := by
    intro a
    obtain ⟨hi, _⟩ := List.getElem?_eq_some_iff.mp hJ
    simp [List.getElem?_set, hi]
  rcases harg with rfl | rfl
  · obtain ⟨n, hn⟩ := Int.eq_ofNat_of_zero_le (show 0 ≤ J.jid by omega)
    have hatoi : atoi (fmt_d J.jid).toList = J.jid := by
      rw [hn]; exact (atoi_fmt_d n (by rw [← hn]; exact hint.2)).2.2
    have hlist : ("%" ++ fmt_d J.jid).toList = '%' :: (fmt_d J.jid).toList := by
      simp [String.toList]
    have hfind := getjobid_of_live s.jobs i J hinv hjids hJ hlive
    by_cases hfg : cmd = "fg"
    · simp only [do_bgfg_core, List.getElem?_cons_succ, List.getElem?_cons_zero, hlist, if_true,
        hatoi, hfind, hJ, List.getD_cons_zero, hfg, hset, hget]
    · simp only [do_bgfg_core, List.getElem?_cons_succ, List.getElem?_cons_zero, hlist, if_true,
        hatoi, hfind, hJ, List.getD_cons_zero, hfg, if_false, hset]
  · obtain ⟨n, hn⟩ := Int.eq_ofNat_of_zero_le (show 0 ≤ J.pid by omega)
    obtain ⟨_, ⟨c, cs, hcs, hc⟩, hatoi⟩ := atoi_fmt_d n (by rw [← hn]; exact hint.1)
    rw [← hn] at hcs hatoi
    rw [hcs] at hatoi
    have hpct : c ≠ '%' := by
      intro he; rw [he] at hc; revert hc; decide
    have hfind := getprocessid_of_live s.jobs i J hinv hpids hJ hlive
    by_cases hfg : cmd = "fg"
    · simp only [do_bgfg_core, List.getElem?_cons_succ, List.getElem?_cons_zero, hcs, hpct,
        if_false, hc, if_true, hatoi, hfind, hJ, List.getD_cons_zero, hfg, hset, hget]
    · simp only [do_bgfg_core, List.getElem?_cons_succ, List.getElem?_cons_zero, hcs, hpct,
        if_false, hc, if_true, hatoi, hfind, hJ, List.getD_cons_zero, hfg, hset]

/-- C12: for every job table (free slots cleared, live pids and job ids
positive) with pairwise-distinct live pids and job ids, and every live job `J`
(slot `i`, pid and job id values of the type `int`) addressed as `%<J.jid>` or
as `<J.pid>`: bg sends exactly one
signal, `SIGCONT` to `-J.pid`, prints `[jid] (pid) cmdline` for `J`, sets the
state of `J` to `BG` and returns; fg sends the same single `SIGCONT` to
`-J.pid`, sets the state of `J` to `FG` and then enters the wait gate on
`J.pid`. In both cases pid, job id and command line of `J`, every other slot
and the counter are unchanged. -/
theorem do_bgfg_live_job (s : Shell) (i : Nat) (J : job_t) (arg : String)
    (more : List String) (pending : List (List (Int × Status)))
    (hinv : SlotsInv s.jobs)
    (hpids : (livePids s.jobs).Nodup) (hjids : (liveJids s.jobs).Nodup)
    (hJ : s.jobs[i]? = some J) (hlive : J.pid ≠ 0)
    (hint : J.pid ≤ INT_MAX ∧ J.jid ≤ INT_MAX)
    (harg : arg = "%" ++ fmt_d J.jid ∨ arg = fmt_d J.pid) :
    do_bgfg s ("bg" :: arg :: more) pending
      = .returned { s with
          kills := s.kills ++ [(-J.pid, SIGCONT)]
          out := s.out ++ ("[" ++ fmt_d J.jid ++ "] (" ++ fmt_d J.pid ++ ") " ++ J.cmdline)
          jobs := s.jobs.set i
            { pid := J.pid, jid := J.jid, state := BG, cmdline := J.cmdline } } ∧
    do_bgfg_core s ("fg" :: arg :: more)
      = ({ s with
          kills := s.kills ++ [(-J.pid, SIGCONT)]
          jobs := s.jobs.set i
            { pid := J.pid, jid := J.jid, state := FG, cmdline := J.cmdline } },
         some J.pid) ∧
    do_bgfg s ("fg" :: arg :: more) pending
      = waitfg { s with
          kills := s.kills ++ [(-J.pid, SIGCONT)]
          jobs := s.jobs.set i
            { pid := J.pid, jid := J.jid, state := FG, cmdline := J.cmdline } }
          J.pid pending := by
  have hbg := do_bgfg_core_resolved s i J "bg" arg more hinv hpids hjids hJ hlive hint harg
  have hfg := do_bgfg_core_resolved s i J "fg" arg more hinv hpids hjids hJ hlive hint harg
  simp only [show ¬ ("bg" = "fg") by decide, if_false] at hbg
  simp only [if_true] at hfg
  refine ⟨?_, hfg, ?_⟩
  · simp only [do_bgfg, hbg]
  · simp only [do_bgfg, hfg]

/-- Witness of `do_bgfg_live_job`: job 2 (pid 201, stopped) of `twoJobs`,
addressed as `%2`; after `bg %2` it is in the background, and `fg %2` with no
child status pending leaves the shell blocked in the wait gate. -/
theorem do_bgfg_live_job_witness :
    SlotsInv twoJobs.jobs ∧ (livePids twoJobs.jobs).Nodup ∧ (liveJids twoJobs.jobs).Nodup ∧
    do_bgfg twoJobs ["bg", "%2"] []
      = .returned { twoJobs with
          kills := [(-201, SIGCONT)]
          out := "[2] (201) ./myspin 5\n"
          jobs := twoJobs.jobs.set 1
            { pid := 201, jid := 2, state := BG, cmdline := "./myspin 5\n" } } ∧
    do_bgfg_core twoJobs ["fg", "%2"]
      = ({ twoJobs with
          kills := [(-201, SIGCONT)]
          jobs := twoJobs.jobs.set 1
            { pid := 201, jid := 2, state := FG, cmdline := "./myspin 5\n" } },
         some 201) ∧
    do_bgfg twoJobs ["fg", "%2"] []
      = .blocked { twoJobs with
          kills := [(-201, SIGCONT)]
          jobs := twoJobs.jobs.set 1
            { pid := 201, jid := 2, state := FG, cmdline := "./myspin 5\n" } } :=
  have h := do_bgfg_live_job twoJobs 1
    { pid := 201, jid := 2, state := ST, cmdline := "./myspin 5\n" } "%2" [] []
    (by decide) (by decide) (by decide) (by decide) (by decide) (by decide) (by decide)
  ⟨by decide, by decide, by decide, h.1, h.2.1, by decide⟩

/-! ## The command-line parser (C13, C14) -/

theorem strchr_length {c : Char} {buf before after : List Char}
    (h : strchr c buf = some (before, after)) : after.length < buf.length := by
  induction buf generalizing before after with
  | nil => simp [strchr] at h
  | cons x xs ih =>
    simp only [strchr] at h
    split_ifs at h with hx
    · simp only [Option.some.injEq, Prod.mk.injEq] at h
      rw [← h.2]; simp
    · cases hrec : strchr c xs with
      | none => rw [hrec] at h; exact absurd h (by simp)
      | some p =>
        obtain ⟨b, a⟩ := p
        rw [hrec] at h
        simp only [Option.some.injEq, Prod.mk.injEq] at h
        have := ih hrec
        rw [← h.2]
        simp only [List.length_cons]
        omega

theorem findDelim_length {buf token rest : List Char}
    (h : findDelim buf = some (token, rest)) : (skipSpaces rest).length < buf.length := by
  have hskip : (skipSpaces rest).length ≤ rest.length :=
    (List.dropWhile_sublist _).length_le
  cases buf with
  | nil => simp [findDelim, strchr] at h
  | cons c cs =>
    simp only [findDelim] at h
    split_ifs at h
    · have := strchr_length h
      simp only [List.length_cons]
      omega
    · have := strchr_length h
      omega

/-- The loop of `parseline` never needs more rounds than the buffer has
characters: with at least that much fuel the result does not depend on it. -/
theorem parseLoop_fuel (fuel1 fuel2 argc : Nat) (buf : List Char)
    (h1 : buf.length ≤ fuel1) (h2 : buf.length ≤ fuel2) :
    parseLoop fuel1 argc buf = parseLoop fuel2 argc buf := by
  induction fuel1 generalizing fuel2 argc buf with
  | zero =>
    have hnil : buf = [] := List.length_eq_zero.mp (by omega)
    subst hnil
    cases fuel2 with
    | zero => rfl
    | succ k => simp [parseLoop, findDelim, strchr]
  | succ k ih =>
    cases fuel2 with
    | zero =>
      have hnil : buf = [] := List.length_eq_zero.mp (by omega)
      subst hnil
      simp [parseLoop, findDelim, strchr]
    | succ m =>
      simp only [parseLoop]
      cases hd : findDelim buf with
      | none => rfl
      | some p =>
        obtain ⟨token, rest⟩ := p
        have := findDelim_length hd
        simp only
        rw [ih m (argc + 1) (skipSpaces rest) (by omega) (by omega)]

/-- When the loop of `parseline` ends without a store out of bounds, the
tokens stored and the `NULL` sentinel fit in `argv`. -/
theorem parseLoop_length (fuel argc : Nat) (buf : List Char) (tokens : List String)
    (h : parseLoop fuel argc buf = some tokens) : argc + tokens.length < MAXARGS := by
  induction fuel generalizing argc buf tokens with
  | zero =>
    simp only [parseLoop] at h
    split_ifs at h with hlt
    simp only [Option.some.injEq] at h
    subst h
    simpa using hlt
  | succ k ih =>
    simp only [parseLoop] at h
    cases hd : findDelim buf with
    | none =>
      rw [hd] at h
      simp only at h
      split_ifs at h with hlt
      simp only [Option.some.injEq] at h
      subst h
      simpa using hlt
    | some p =>
      obtain ⟨token, rest⟩ := p
      rw [hd] at h
      simp only at h
      split_ifs at h with hlt
      cases hrec : parseLoop k (argc + 1) (skipSpaces rest) with
      | none => rw [hrec] at h; exact absurd h (by simp)
      | some args =>
        rw [hrec] at h
        simp only [Option.some.injEq] at h
        subst h
        have := ih (argc + 1) (skipSpaces rest) args hrec
        simp only [List.length_cons]
        omega

set_option maxRecDepth 100000 in
/-- The argument vector holds 127 tokens and the sentinel, not more: the line
of 127 tokens `a` is parsed, on the line of 128 tokens `a` the store of the
sentinel is out of bounds. -/
theorem parseline_capacity :
    (parseline (tokenLine 127)).map (fun r => (r.1, r.2.length)) = some (0, 127) ∧
    parseline (tokenLine 128) = none := by
  decide

/-- C13 as stated fails: the last token of `ls &x` is `&x`, not the background
marker `&`, and still `parseline` returns 1 and removes that token from the
argument vector. -/
theorem parseline_flag_fails :
    tokenize "ls &x\n" = some ["ls", "&x"] ∧ parseline "ls &x\n" = some (1, ["ls"]) := by
  decide

/-- C13, amended: for every command line on which the parser finds at least
one token and whose tokens fit in the argument vector (`tokenize` gives them:
at most 127, which leaves room for the sentinel), the returned flag is 0 or
1, and it is 1 exactly when the last token begins with the character `&`; in
that case the argument vector is the token sequence without that last token,
and otherwise the argument vector is the full token sequence. -/
theorem parseline_flag (cmdline : String) (tokens : List String) (last : String)
    (hne : cmdline.toList ≠ [])
    (htok : tokenize cmdline = some tokens)
    (hlast : tokens.getLast? = some last) :
    tokens.length < MAXARGS ∧
    ∃ bg argv, parseline cmdline = some (bg, argv) ∧
      (bg = 0 ∨ bg = 1) ∧
      (bg = 1 ↔ last.toList.head? = some '&') ∧
      (bg = 1 → argv = tokens.dropLast) ∧
      (bg = 0 → argv = tokens) := by
  have hlen : tokens.length < MAXARGS := by
    have := parseLoop_length _ 0 _ tokens htok
    omega
  refine ⟨hlen, ?_⟩
  by_cases hamp : last.toList.head? = some '&'
  · refine ⟨1, tokens.dropLast, ?_, Or.inr rfl, ⟨fun _ => hamp, fun _ => rfl⟩,
      fun _ => rfl, fun h => absurd h (by decide)⟩
    simp only [parseline, hne, if_false, htok, hlast, hamp, if_true]
  · refine ⟨0, tokens, ?_, Or.inl rfl, ⟨fun h => absurd h (by decide),
      fun h => absurd h hamp⟩, fun h => absurd h (by decide), fun _ => rfl⟩
    simp only [parseline, hne, if_false, htok, hlast, hamp]

/-- Witness of `parseline_flag`: the line `./myspin 4 &`, whose last token is
`&`, and the value of `parseline` on it. -/
theorem parseline_flag_witness :
    "./myspin 4 &\n".toList ≠ [] ∧
    tokenize "./myspin 4 &\n" = some ["./myspin", "4", "&"] ∧
    parseline "./myspin 4 &\n" = some (1, ["./myspin", "4"]) ∧
    parseline "./myspin 4\n" = some (0, ["./myspin", "4"]) ∧
    (["./myspin", "4", "&"].length < MAXARGS ∧
    ∃ bg argv, parseline "./myspin 4 &\n" = some (bg, argv) ∧
      (bg = 0 ∨ bg = 1) ∧
      (bg = 1 ↔ "&".toList.head? = some '&') ∧
      (bg = 1 → argv = ["./myspin", "4", "&"].dropLast) ∧
      (bg = 0 → argv = ["./myspin", "4", "&"])) :=
  ⟨by decide, by decide, by decide, by decide,
    parseline_flag "./myspin 4 &\n" ["./myspin", "4", "&"] "&"
      (by decide) (by decide) (by decide)⟩

/-- C14 as stated fails: on the line of two spaces and the newline the parser
builds the empty argument vector and returns 1, not 0. -/
theorem parseline_blank_fails :
    parseline "  \n" = some (1, []) ∧ parseline "  \n" ≠ some (0, []) := by
  decide

/-- C14, amended: for every input line that consists only of zero or more
spaces followed by the newline, the parser produces a zero-length argument
vector and returns 1, the value of its `ignore blank line` exit. -/
theorem parseline_blank (n : Nat) :
    parseline (String.mk (List.replicate n ' ' ++ ['\n'])) = some (1, []) := by
  have hne : (String.mk (List.replicate n ' ' ++ ['\n'])).toList ≠ [] := by
    simp [String.toList]
  have hbuf : (String.mk (List.replicate n ' ' ++ ['\n'])).toList.dropLast ++ [' ']
      = List.replicate (n + 1) ' ' := by
    simp [String.toList, List.replicate_succ']
  have hskip : skipSpaces (List.replicate (n + 1) ' ') = [] := by
    unfold skipSpaces
    rw [List.dropWhile_eq_nil_iff]
    intro c hc
    rw [List.eq_of_mem_replicate hc]
    rfl
  have htok : tokenize (String.mk (List.replicate n ' ' ++ ['\n'])) = some [] := by
    unfold tokenize
    rw [hbuf, hskip]
    simp [parseLoop, findDelim, strchr, MAXARGS]
  simp only [parseline, hne, if_false, htok, List.getLast?_nil]

/-! ## The alarm handler and the bulk-signal command (C15, C16) -/

/-- The loop of `sigalrm_handler` makes one `kill` call per live slot, in slot
order, to the negated pid and with the signal number it was given. -/
theorem sigalrmLoop_eq (sig : Int) (jobs : List job_t) :
    sigalrmLoop sig jobs = (livePids jobs).map (fun pid => (-pid, sig)) := by
  induction jobs with
  | nil => rfl
  | cons j js ih =>
    by_cases h : j.pid = 0
    · simp [sigalrmLoop, livePids, List.filter_cons, h] at ih ⊢
      exact ih
    · simp [sigalrmLoop, livePids, List.filter_cons, h] at ih ⊢
      exact ih

/-- C15, evaluated on the table `twoJobs` (live pids 200 and 201): run on
delivery of `SIGALRM`, the handler leaves the job table unchanged and makes one
`kill` call per live job, to the negated pid, but the signal it sends is its
own argument `SIGALRM` (14); no `SIGINT` (2) is sent. -/
theorem sigalrm_handler_forwards_alarm :
    (sigalrm_handler twoJobs SIGALRM).jobs = twoJobs.jobs ∧
    (sigalrm_handler twoJobs SIGALRM).kills = [(-200, SIGALRM), (-201, SIGALRM)] ∧
    (-200, SIGINT) ∉ (sigalrm_handler twoJobs SIGALRM).kills ∧
    (-201, SIGINT) ∉ (sigalrm_handler twoJobs SIGALRM).kills := by
  decide

/-- C16, evaluated on the line `killall 5`: `is_builtin_cmd` returns 0 for it,
so `eval` forks, registers the child (pid 300) as a foreground job and enters
the wait gate; no `alarm` call is made. The function `do_killall`, which no
function calls, would schedule the alarm for 53 seconds, the character code
of `5`. -/
theorem killall_is_not_builtin :
    parseline "killall 5\n" = some (0, ["killall", "5"]) ∧
    is_builtin_cmd (initShell false) ["killall", "5"] [] = .value 0 (initShell false) ∧
    eval (initShell false) "killall 5\n" 300 false []
      = ([.fork], .blocked (addjob (initShell false) 300 FG "killall 5\n").2) ∧
    livePids (addjob (initShell false) 300 FG "killall 5\n").2.jobs = [300] ∧
    do_killall ["killall", "5"] = some [.alarm 53] := by
  decide

/-! ## The child branch of `eval` (C17) -/

/-- C17, evaluated on the line `/bin/ls`: in the child (where `fork` returned
0) the first and only process-control call after the fork is `execvp`; no
`setpgid` call precedes it, whether `execvp` succeeds or fails. -/
theorem eval_child_no_setpgid :
    eval (initShell false) "/bin/ls\n" 0 false []
      = ([.fork, .execvp "/bin/ls" ["/bin/ls"]], .replaced) ∧
    (eval (initShell false) "/bin/ls\n" 0 true []).1
      = [.fork, .execvp "/bin/ls" ["/bin/ls"]] ∧
    ∀ (s : Shell) (argv : List String) (execFails : Bool) (pid pgid : Int),
      SysCall.setpgid pid pgid ∉ (eval_child s argv execFails).1 := by
  refine ⟨by decide, by decide, ?_⟩
  intro s argv execFails pid pgid
  simp [eval_child]

/-! ## Malformed arguments of bg and fg (C18) -/

/-- C18 as stated fails: the argument `201x` does not begin with `%` and is
not a string of decimal digits, and still `bg 201x` on the table `twoJobs`
prints no usage diagnostic: it resolves to pid 201, sends `SIGCONT` to -201
and puts the stopped job 2 in the background. On the empty table `fg 5x`
prints `(5): No such process`. -/
theorem do_bgfg_digit_prefix :
    do_bgfg twoJobs ["bg", "201x"] []
      = .returned { twoJobs with
          kills := [(-201, SIGCONT)]
          out := "[2] (201) ./myspin 5\n"
          jobs := twoJobs.jobs.set 1
            { pid := 201, jid := 2, state := BG, cmdline := "./myspin 5\n" } } ∧
    do_bgfg (initShell false) ["fg", "5x"] []
      = .returned { initShell false with out := "(5): No such process\n" } := by
  decide

/-- C18, amended: for every job table and every fg or bg argument whose first
character is neither the job-id marker `%` nor a decimal digit (the empty
argument included), `do_bgfg` rejects it with the usage diagnostic
`<cmd>: argument must be a PID or %jobid`, sends no signal, leaves the job
table unchanged and returns. -/
theorem do_bgfg_usage (s : Shell) (cmd arg : String) (more : List String)
    (pending : List (List (Int × Status)))
    (harg : ∀ c, arg.toList.head? = some c → c ≠ '%' ∧ isdigit c = false) :
    do_bgfg s (cmd :: arg :: more) pending
      = .returned { s with out := s.out ++ (cmd ++ ": argument must be a PID or %jobid\n") } := by
  cases hl : arg.toList with
  | nil =>
    simp only [do_bgfg, do_bgfg_core, List.getElem?_cons_succ, List.getElem?_cons_zero, hl,
      List.getD_cons_zero]
  | cons c cs =>
    obtain ⟨h1, h2⟩ := harg c (by rw [hl]; rfl)
    simp only [do_bgfg, do_bgfg_core, List.getElem?_cons_succ, List.getElem?_cons_zero, hl,
      List.getD_cons_zero, h1, if_false, h2, Bool.false_eq_true]

/-- Witness of `do_bgfg_usage`: `fg x5` on the table `twoJobs`. -/
theorem do_bgfg_usage_witness :
    (∀ c, "x5".toList.head? = some c → c ≠ '%' ∧ isdigit c = false) ∧
    do_bgfg twoJobs ["fg", "x5"] []
      = .returned { twoJobs with out := "fg: argument must be a PID or %jobid\n" } :=
  have h : ∀ c, "x5".toList.head? = some c → c ≠ '%' ∧ isdigit c = false := by
    intro c hc
    have hx : c = 'x' := (Option.some.inj hc).symm
    subst hx
    decide
  ⟨h, do_bgfg_usage twoJobs "fg" "x5" [] [] h⟩

/-! ## Lookups that find nothing (C19, C20) -/

/-- C19, evaluated on the empty table: pid 300 is not live; the handler
processes an exit or a termination by signal of pid 300 without a change of
the table, but on a "stopped by signal 20" status of pid 300 it writes through
the `NULL` that `getprocessid` returned, a fault. -/
theorem sigchld_handler_stop_unknown_pid :
    (300 : Int) ∉ livePids (initShell false).jobs ∧
    getprocessid (initShell false).jobs 300 = none ∧
    sigchld_handler (initShell false) [(300, .stopped 20)] = none ∧
    sigchld_handler (initShell false) [(300, .exited 0)] = some (initShell false) ∧
    (sigchld_handler (initShell false) [(300, .signaled 2)]).map (fun s => (s.jobs, s.nextjid))
      = some ((initShell false).jobs, (initShell false).nextjid) := by
  decide

/-- C20, evaluated on the full table `fullTable` with the new child pid 17: the
registration fails with the diagnostic and leaves the table unchanged, but
then `eval` does not return to the read loop. In foreground mode `waitfg`
reads `job->state` through the `NULL` that `getprocessid` returned, in
background mode the announcement reads `job->jid` through it: a fault in
both modes. -/
theorem eval_full_table_faults :
    (∀ j ∈ fullTable.jobs, j.pid ≠ 0) ∧ fullTable.jobs.length = MAXJOBS ∧
    (addjob fullTable 17 FG "/bin/ls\n").1 = 0 ∧
    (addjob fullTable 17 FG "/bin/ls\n").2.jobs = fullTable.jobs ∧
    (addjob fullTable 17 FG "/bin/ls\n").2.out = "Tried to create too many jobs\n" ∧
    getprocessid (addjob fullTable 17 FG "/bin/ls\n").2.jobs 17 = none ∧
    eval fullTable "/bin/ls\n" 17 false [] = ([.fork], .fault) ∧
    eval fullTable "/bin/ls &\n" 17 false [] = ([.fork], .fault) := by
  decide

/-! ## The slot invariant in every state the shell reaches -/

/-- A write that changes neither pid nor job id of a slot keeps the slot
invariant. -/
theorem slotsInv_updateSlot (jobs : List job_t) (i : Nat) (f : job_t → job_t)
    (hf : ∀ j, (f j).pid = j.pid ∧ (f j).jid = j.jid) (h : SlotsInv jobs) :
    SlotsInv (updateSlot jobs i f) := by
  cases hi : jobs[i]? with
  | none => simpa [updateSlot, hi] using h
  | some j =>
    obtain ⟨l1, l2, rfl, rfl⟩ := split_of_getElem? hi
    rw [updateSlot_split]
    intro x hx
    rcases List.mem_append.mp hx with hx | hx
    · exact h x (by simp [hx])
    · rcases List.mem_cons.mp hx with rfl | hx
      · have := h j (by simp)
        rw [(hf j).1, (hf j).2]
        exact this
      · exact h x (by simp [hx])

theorem tableInv_do_bgfg_core (s : Shell) (argv : List String) (h : TableInv s) :
    TableInv (do_bgfg_core s argv).1 := by
  unfold do_bgfg_core
  simp only
  split
  · exact h
  · split
    · exact h
    · split_ifs
      · exact ⟨h.1, slotsInv_updateSlot _ _ _ (fun j => ⟨rfl, rfl⟩) h.2⟩
      · exact ⟨h.1, slotsInv_updateSlot _ _ _ (fun j => ⟨rfl, rfl⟩) h.2⟩

theorem tableInv_sigchld_body (s s1 : Shell) (pid : Int) (status : Status)
    (h : TableInv s) (hs : sigchld_body s pid status = some s1) : TableInv s1 := by
  unfold sigchld_body at hs
  split_ifs at hs
  · split at hs
    · exact absurd hs (by simp)
    · simp only [Option.some.injEq] at hs
      subst hs
      exact ⟨h.1, slotsInv_updateSlot _ _ _ (fun j => ⟨rfl, rfl⟩) h.2⟩
  · simp only [Option.some.injEq] at hs
    subst hs
    exact tableInv_removejob _ _ ⟨h.1, h.2⟩
  · simp only [Option.some.injEq] at hs
    subst hs
    exact tableInv_removejob _ _ h
  · simp only [Option.some.injEq] at hs
    subst hs
    exact h

/-- Every state the shell reaches from the initialized table by launches, the
built-ins bg and fg and processed child statuses satisfies the slot invariant
that the statements on `do_bgfg` assume. -/
theorem slotsInv_runSteps (s s1 : Shell) (steps : List ShellStep)
    (h : TableInv s) (hrun : runSteps s steps = some s1) : SlotsInv s1.jobs := by
  induction steps generalizing s with
  | nil =>
    simp only [runSteps, Option.some.injEq] at hrun
    subst hrun
    exact h.2
  | cons st rest ih =>
    simp only [runSteps] at hrun
    split_ifs at hrun
    cases hstep : shellStep s st with
    | none => rw [hstep] at hrun; exact absurd hrun (by simp)
    | some s2 =>
      rw [hstep] at hrun
      refine ih s2 ?_ hrun
      cases st with
      | launch pid bg cmdline =>
        simp only [shellStep, Option.some.injEq] at hstep
        subst hstep
        exact tableInv_addjob _ _ _ _ h
      | bgfg argv =>
        simp only [shellStep, Option.some.injEq] at hstep
        subst hstep
        exact tableInv_do_bgfg_core _ _ h
      | child pid status => exact tableInv_sigchld_body s s2 pid status h hstep

/-! ## Fresh pids: uniqueness and removal (C21) -/

/-- A sequence whose adds are fresh stays so when it is cut short. -/
theorem freshAdds_take (s : Shell) (ops : List JobOp) (k : Nat) (h : freshAdds s ops) :
    freshAdds s (ops.take k) := by
  induction ops generalizing s k with
  | nil => simpa using h
  | cons op ops ih =>
    cases k with
    | zero => exact trivial
    | succ k =>
      cases op with
      | add pid state cmdline => exact ⟨h.1, ih _ k h.2⟩
      | remove pid => exact ih _ k h

/-- After a successful `removejob(pid)` on a table with pairwise-distinct live
pids, no slot holds `pid`. -/
theorem removejob_then_getprocessid (s : Shell) (pid : Int)
    (hnd : (livePids s.jobs).Nodup) (hok : (removejob s pid).1 = 1) :
    getprocessid (removejob s pid).2.jobs pid = none := by
  rcases removejob_cases s pid with ⟨_, heq⟩ | ⟨hpos, l1, j, l2, hl, hj, _, heq⟩
  · rw [heq] at hok
    exact absurd hok (show ¬ ((0 : Int) = 1) by decide)
  · apply getprocessid_none
    rw [heq]
    rw [hl, livePids_split] at hnd
    have hp : j.pid ≠ 0 := by omega
    simp only [hp, if_false, List.append_assoc, List.singleton_append] at hnd
    have hnot := (List.nodup_cons.mp (List.nodup_middle.mp hnd)).1
    simp only [livePids_split, clearjob, if_true, List.append_nil]
    rw [← hj]
    exact hnot

/-- C21: for every sequence of add and remove calls on the initialized job
table in which each add is given a pid that is not live at that moment, the
pids of the live slots are pairwise distinct after every number `k` of calls,
and whenever `removejob(pid)` then succeeds on the final table,
`getprocessid(pid)` returns `NULL` afterwards. -/
theorem fresh_pids_unique_and_removed (verbose : Bool) (ops : List JobOp) (pid : Int)
    (hfresh : freshAdds (initShell verbose) ops) :
    (∀ k, (livePids (runOps (initShell verbose) (ops.take k)).jobs).Nodup) ∧
    ((removejob (runOps (initShell verbose) ops) pid).1 = 1 →
      getprocessid (removejob (runOps (initShell verbose) ops) pid).2.jobs pid = none) := by
  have hinit : (livePids (initShell verbose).jobs).Nodup := by
    rw [livePids_initShell]; exact List.nodup_nil
  refine ⟨fun k => ?_, fun hok => ?_⟩
  · exact runOps_livePids_nodup _ _ hinit (freshAdds_take _ ops k hfresh)
  · exact removejob_then_getprocessid _ pid (runOps_livePids_nodup _ ops hinit hfresh) hok

/-- Witness of `fresh_pids_unique_and_removed`: the sequence `wrapOps`, after
which pid 3 is live and its removal succeeds. -/
theorem fresh_pids_unique_and_removed_witness :
    freshAdds (initShell false) wrapOps ∧
    (removejob (runOps (initShell false) wrapOps) 3).1 = 1 ∧
    (∀ k, (livePids (runOps (initShell false) (wrapOps.take k)).jobs).Nodup) ∧
    getprocessid (removejob (runOps (initShell false) wrapOps) 3).2.jobs 3 = none :=
  have h := fresh_pids_unique_and_removed false wrapOps 3 (by decide)
  ⟨by decide, by decide, h.1, h.2 (by decide)⟩

/-! ## A blank command line (C22) -/

/-- A line of spaces and the newline has no token. -/
theorem tokenize_blank (n : Nat) :
    tokenize (String.mk (List.replicate n ' ' ++ ['\n'])) = some [] := by
  have hbuf : (String.mk (List.replicate n ' ' ++ ['\n'])).toList.dropLast ++ [' ']
      = List.replicate (n + 1) ' ' := by
    simp [String.toList, List.replicate_succ']
  have hskip : skipSpaces (List.replicate (n + 1) ' ') = [] := by
    unfold skipSpaces
    rw [List.dropWhile_eq_nil_iff]
    intro c hc
    rw [List.eq_of_mem_replicate hc]
    rfl
  unfold tokenize
  rw [hbuf, hskip]
  simp [parseLoop, findDelim, strchr, MAXARGS]

/-- C22, evaluated on blank lines: `parseline` leaves the argument vector
empty, and `is_builtin_cmd`, which `eval` calls without a test of `argv[0]`,
passes the `NULL` in `argv[0]` to `strcmp`. The evaluation of the lines of
zero and of three spaces faults, and so does that of every line of spaces and
the newline on every job table, before any `fork`. -/
theorem eval_blank_line_faults :
    parseline "\n" = some (1, []) ∧
    eval (initShell false) "\n" 300 false [] = ([], .fault) ∧
    eval twoJobs "   \n" 300 false [] = ([], .fault) ∧
    (∀ (s : Shell) (pending : List (List (Int × Status))),
      is_builtin_cmd s [] pending = .ends .fault) ∧
    ∀ (s : Shell) (n : Nat) (forkResult : Int) (execFails : Bool)
      (pending : List (List (Int × Status))),
      eval s (String.mk (List.replicate n ' ' ++ ['\n'])) forkResult execFails pending
        = ([], .fault) := by
  refine ⟨by decide, by decide, by decide, fun s pending => rfl, ?_⟩
  intro s n forkResult execFails pending
  have hne : (String.mk (List.replicate n ' ' ++ ['\n'])).toList ≠ [] := by
    simp [String.toList]
  have hparse : parseline (String.mk (List.replicate n ' ' ++ ['\n'])) = some (1, []) := by
    simp only [parseline, hne, if_false, tokenize_blank, List.getLast?_nil]
  simp only [eval, hparse, is_builtin_cmd]

end Tsh
